import Mathlib

/-!
Verification development for the typeset layout engine
(`src/typeset/dsl.py`, `src/typeset/doc.py`).

The file has two layers.

Layer 1 is a faithful shallow embedding of the code that is present in
`src/`: the `Layout` AST and its constructors from `dsl.py`; the
`Document` / `DocumentObject` / `DocumentObjectFix` ASTs, the `_State`
record and the helper functions `_init`, `_inc_pos`, `_indent`,
`_newline`, `_reset`, `_offset`, the inner functions of `render`
(`_measure`, `_next_comp`, `_will_fit`, `_should_break`, `_visit_fix`,
`_visit_obj`, `_visit_doc`) and `render` itself, all from `doc.py`.
Python behaviour that raises an exception (ZeroDivisionError from a
modulus by zero, TypeError from unpacking a non-tuple or from using the
None returned by an ellipsis-bodied stub) is embedded as `Option.none`;
Python's `%` on integers is `Int.fmod` (remainder taking the sign of
the divisor); Python's truncating `max(0, ...)` is kept as `max`.

Layer 2 is a rendering model for the parts of the engine whose bodies
are missing from `src/` (the bodies of `_measure`, `_next_comp`,
`_visit_obj` and `_visit_doc` are the ellipsis expression, and the
lowering from `Layout` to the canonical document form appears in no
source file): those definitions are marked `Modelled from the spec:`
and follow the specification's description of lowering and of the
single-pass width-directed renderer.
-/

namespace Typeset

/-! ## Layer 1: the caller-facing `Layout` AST, from `src/typeset/dsl.py`. -/

/-- The `Layout` tree of `dsl.py` (constructors `_Null`, `_Text`, `_Fix`,
`_Grp`, `_Seq`, `_Nest`, `_Pack`, `_Line`, `_Comp`; the leading
underscores of the Python class names are dropped). -/
inductive Layout where
  | Null : Layout
  | Text (data : String) : Layout
  | Fix (layout : Layout) : Layout
  | Grp (layout : Layout) : Layout
  | Seq (layout : Layout) : Layout
  | Nest (layout : Layout) : Layout
  | Pack (layout : Layout) : Layout
  | Line (left : Layout) (right : Layout) : Layout
  | Comp (left : Layout) (right : Layout) (pad : Bool) (fix : Bool) : Layout
  deriving DecidableEq, Repr

/-- Constructor `null()` of `dsl.py`. -/
def null : Layout := Layout.Null

/-- Constructor `text(data)` of `dsl.py`: it performs no validation of any
kind on `data` and simply wraps it. -/
def text (data : String) : Layout := Layout.Text data

/-- Constructor `fix(layout)` of `dsl.py`. -/
def fix (layout : Layout) : Layout := Layout.Fix layout

/-- Constructor `grp(layout)` of `dsl.py`. -/
def grp (layout : Layout) : Layout := Layout.Grp layout

/-- Constructor `seq(layout)` of `dsl.py`. -/
def seq (layout : Layout) : Layout := Layout.Seq layout

/-- Constructor `nest(layout)` of `dsl.py`. -/
def nest (layout : Layout) : Layout := Layout.Nest layout

/-- Constructor `pack(layout)` of `dsl.py`. -/
def pack (layout : Layout) : Layout := Layout.Pack layout

/-- Constructor `line(left, right)` of `dsl.py` (the spec's `lineBreak`). -/
def line (left : Layout) (right : Layout) : Layout := Layout.Line left right

/-- Constructor `comp(left, right, pad, fix)` of `dsl.py`. -/
def comp (left : Layout) (right : Layout) (pad : Bool) (fixed : Bool) : Layout :=
  Layout.Comp left right pad fixed

/-! ## Layer 1: the canonical document ASTs, from `src/typeset/doc.py`. -/

/-- `DocumentObjectFix` of `doc.py`: the restricted tree inside a fix
region (`_FixText` and `_FixComp` only). -/
inductive DocumentObjectFix where
  | FixText (data : String) : DocumentObjectFix
  | FixComp (left : DocumentObjectFix) (right : DocumentObjectFix) (pad : Bool) :
      DocumentObjectFix
  deriving DecidableEq, Repr

/-- `DocumentObject` of `doc.py` (`_Text`, `_Fix`, `_Grp`, `_Seq`, `_Nest`,
`_Pack`, `_Comp`). Per the spec, a `_Comp` node is the breakable
composition: it is the document's break point. -/
inductive DocumentObject where
  | Text (data : String) : DocumentObject
  | Fix (fix : DocumentObjectFix) : DocumentObject
  | Grp (obj : DocumentObject) : DocumentObject
  | Seq (obj : DocumentObject) : DocumentObject
  | Nest (obj : DocumentObject) : DocumentObject
  | Pack (index : Nat) (obj : DocumentObject) : DocumentObject
  | Comp (left : DocumentObject) (right : DocumentObject) (pad : Bool) : DocumentObject
  deriving DecidableEq, Repr

/-- `Document` of `doc.py` (`_EOD`, `_Empty`, `_Break`, `_Line`). -/
inductive Document where
  | EOD : Document
  | Empty (doc : Document) : Document
  | Break (obj : DocumentObject) (doc : Document) : Document
  | Line (obj : DocumentObject) : Document
  deriving DecidableEq, Repr

/-! ## Layer 1: render state and helpers, from `src/typeset/doc.py`. -/

/-- The `_State` dataclass of `doc.py`: `head`, `line`, `lvl`, `pos`,
`marks`. Python integers are `Int`; the `marks` dictionary is an
association list (the source never touches it in the code that is
present). -/
structure _State where
  head : Bool
  line : Bool
  lvl : Int
  pos : Int
  marks : List (Int × Int)
  deriving DecidableEq, Repr

/-- `_init()` of `doc.py`. -/
def _init : _State :=
  { head := true, line := false, lvl := 0, pos := 0, marks := [] }

/-- `_inc_pos(state, value)` of `doc.py`. -/
def _inc_pos (state : _State) (value : Int) : _State :=
  { state with pos := state.pos + value }

/-- `_indent(tab, state)` of `doc.py`, embedded exactly as written: the
line `if tab <= 0: state` is a bare expression statement with no
`return`, so it has no effect and control always falls through to
`lvl = state.lvl + (tab - (state.lvl % tab))`.  With `tab = 0` the
modulus raises ZeroDivisionError (embedded as `none`); Python's `%`
is `Int.fmod` (remainder with the sign of the divisor). -/
def _indent (tab : Int) (state : _State) : Option _State :=
  if tab = 0 then none
  else some { state with lvl := state.lvl + (tab - Int.fmod state.lvl tab) }

/-- `_newline(state)` of `doc.py`: `head = True`, `pos = 0`. -/
def _newline (state : _State) : _State :=
  { state with head := true, pos := 0 }

/-- `_reset(state)` of `doc.py`: `head = True`, `line = False`, `pos = 0`. -/
def _reset (state : _State) : _State :=
  { state with head := true, line := false, pos := 0 }

/-- `_offset(state)` of `doc.py`: `0` when not at line head, otherwise
`max(0, state.lvl - state.pos)`. -/
def _offset (state : _State) : Int :=
  if !state.head then 0 else max 0 (state.lvl - state.pos)

/-! ## Layer 1: the inner functions of `render`, from `src/typeset/doc.py`.

`_measure`, `_next_comp`, `_visit_obj` and `_visit_doc` have the
ellipsis expression `...` as their whole body: calling them returns
`None`.  Any caller that uses that result as an `int` or unpacks it as
a tuple raises a TypeError.  Both outcomes are embedded as `none`. -/

/-- `_measure(obj, state)` of `doc.py`: the body is `...`, so the call
returns `None` (no `int` is ever produced). -/
def _measure (obj : DocumentObject) (state : _State) : Option Int := none

/-- `_next_comp(obj, state)` of `doc.py`: the body is `...`, so the call
returns `None`. -/
def _next_comp (obj : DocumentObject) (state : _State) : Option Int := none

/-- `_will_fit(obj, state)` of `doc.py`: `_measure(obj, state) <= width`.
Comparing the `None` returned by the stubbed `_measure` with an `int`
raises TypeError, embedded by mapping over the `Option`. -/
def _will_fit (width : Int) (obj : DocumentObject) (state : _State) : Option Bool :=
  (_measure obj state).map (fun m => m ≤ width)

/-- `_should_break(obj, state)` of `doc.py`: `True` as soon as
`state.line` is set (the sticky break flag short-circuits before the
stubbed `_next_comp` is ever called); otherwise
`width < _next_comp(obj, state)`, which raises TypeError on the
stub's `None`. -/
def _should_break (width : Int) (obj : DocumentObject) (state : _State) : Option Bool :=
  if state.line then some true
  else (_next_comp obj state).map (fun n => width < n)

/-- Work-stack entries of the loop inside `_visit_fix` of `doc.py`.  The
stack is initialised with the tuple `(0, fix)`, but the `_FixComp`
branch executes `stack.append(right)` — appending the bare
`DocumentObjectFix` value `right`, not a tuple (and the preceding
`fix = left` assignment is dead: `fix` is only read when the stack is
initialised, which has already happened).  So an entry is either a
genuine pad/object tuple or a bare object. -/
inductive FixFrame where
  | tup (pad : Nat) (f : DocumentObjectFix) : FixFrame
  | bare (f : DocumentObjectFix) : FixFrame
  deriving DecidableEq, Repr

/-- Termination measure for the `_visit_fix` loop: a tuple framing a
`_FixComp` is replaced by one bare frame, every other pop shrinks the
stack. -/
def frameW : FixFrame → Nat
  | FixFrame.tup _ (DocumentObjectFix.FixComp _ _ _) => 2
  | _ => 1

/-- Total measure of a `_visit_fix` work stack. -/
def stackW (s : List FixFrame) : Nat := (s.map frameW).sum

/-- The inner `while` loop of `_visit_fix` of `doc.py`, embedded exactly:
pop the top of the stack; unpacking `_pad, _fix = stack.pop(-1)`
raises TypeError when the popped entry is a bare object (the result of
the buggy `stack.append(right)`), embedded as `none`; a `_FixText`
advances `state.pos` by `len(data) + _pad` and appends the padding and
the text to the result; a `_FixComp` pushes the bare `right` (the
assignment `fix = left` is dead code and binds nothing reachable). -/
def _visit_fix_loop (state : _State) (result : String) (stack : List FixFrame) :
    Option (_State × String) :=
  match stack with
  | [] => some (state, result)
  | FixFrame.bare _ :: _ => none
  | FixFrame.tup pad (DocumentObjectFix.FixText data) :: rest =>
      _visit_fix_loop (_inc_pos state ((data.length : Int) + pad))
        (result ++ String.mk (List.replicate pad ' ') ++ data) rest
  | FixFrame.tup _ (DocumentObjectFix.FixComp _ right _) :: rest =>
      _visit_fix_loop state result (FixFrame.bare right :: rest)
termination_by stackW stack
decreasing_by
  all_goals simp [stackW, frameW]

/-- `_visit_fix(fix, state)` of `doc.py`: the outer `while True` loop
returns during its first iteration, with the work stack initialised to
`[(0, fix)]` and the result string empty. -/
def _visit_fix (fixObj : DocumentObjectFix) (state : _State) : Option (_State × String) :=
  _visit_fix_loop state "" [FixFrame.tup 0 fixObj]

/-- `_visit_obj(obj, state)` of `doc.py`: the body is `...`, so the call
returns `None` instead of a `(state, string)` tuple. -/
def _visit_obj (obj : DocumentObject) (state : _State) : Option (_State × String) := none

/-- `_visit_doc(doc, state)` of `doc.py`: the body is `...`, so the call
returns `None` instead of a `(state, string)` tuple. -/
def _visit_doc (doc : Document) (state : _State) : Option (_State × String) := none

/-- `render(doc, tab, width)` of `doc.py`: evaluates
`_, result = _visit_doc(doc, _init())` and returns `result`.  The
stubbed `_visit_doc` returns `None`, and unpacking `None` as a tuple
raises TypeError, embedded as `none`. -/
def render (doc : Document) (tab : Int) (width : Int) : Option String :=
  match _visit_doc doc _init with
  | some (_, result) => some result
  | none => none

/-! ## Layer 2: lowering, modelled from the spec.

Modelled from the spec: the lowering from `Layout` to the canonical
document form appears in no source file (only its output types do), so
it follows section 4.2 of the spec: `Null` becomes the empty text;
`Text` maps to `Text` (or `FixedText` inside a fix scope);
`Grp`/`Seq`/`Nest`/`Pack` lose their structural significance inside a
fix scope; a `Comp` with `fixedFlatten = true` forces its whole subtree
through fixed lowering; `Line` lowers to the breakable composition with
a padded separator, and inside a fix scope it degenerates to an
unconditional single space. -/

/-- Modelled from the spec: fixed lowering of a `Layout` subtree inside a
fix scope (spec section 4.2); the missing source code is the lowering
pass. -/
def lowerFix : Layout → DocumentObjectFix
  | Layout.Null => DocumentObjectFix.FixText ""
  | Layout.Text d => DocumentObjectFix.FixText d
  | Layout.Fix l => lowerFix l
  | Layout.Grp l => lowerFix l
  | Layout.Seq l => lowerFix l
  | Layout.Nest l => lowerFix l
  | Layout.Pack l => lowerFix l
  | Layout.Line l r => DocumentObjectFix.FixComp (lowerFix l) (lowerFix r) true
  | Layout.Comp l r pad _ => DocumentObjectFix.FixComp (lowerFix l) (lowerFix r) pad

/-- Modelled from the spec: breakable lowering of a `Layout` tree (spec
section 4.2); the missing source code is the lowering pass.  The
`_Pack` index field (used only by the memoisation dictionary, which the
spec calls a pure optimisation) is filled with `0`. -/
def lower : Layout → DocumentObject
  | Layout.Null => DocumentObject.Text ""
  | Layout.Text d => DocumentObject.Text d
  | Layout.Fix l => DocumentObject.Fix (lowerFix l)
  | Layout.Grp l => DocumentObject.Grp (lower l)
  | Layout.Seq l => DocumentObject.Seq (lower l)
  | Layout.Nest l => DocumentObject.Nest (lower l)
  | Layout.Pack l => DocumentObject.Pack 0 (lower l)
  | Layout.Line l r => DocumentObject.Comp (lower l) (lower r) true
  | Layout.Comp l r pad fixed =>
      if fixed then DocumentObject.Fix (DocumentObjectFix.FixComp (lowerFix l) (lowerFix r) pad)
      else DocumentObject.Comp (lower l) (lower r) pad

/-! ## Layer 2: flat measures of canonical trees. -/

/-- Characters of a fixed region rendered flat: texts concatenated with a
single space at each padded composition (spec sections 4.2 and 4.3,
item 5). -/
def fixChars : DocumentObjectFix → List Char
  | DocumentObjectFix.FixText d => d.data
  | DocumentObjectFix.FixComp l r pad =>
      fixChars l ++ (if pad then [' '] else []) ++ fixChars r

/-- Flat width of a fixed region. -/
def fixW (f : DocumentObjectFix) : Nat := (fixChars f).length

/-- Characters of a breakable object rendered entirely flat (every break
point kept as its pad). -/
def flatChars : DocumentObject → List Char
  | DocumentObject.Text d => d.data
  | DocumentObject.Fix f => fixChars f
  | DocumentObject.Grp o => flatChars o
  | DocumentObject.Seq o => flatChars o
  | DocumentObject.Nest o => flatChars o
  | DocumentObject.Pack _ o => flatChars o
  | DocumentObject.Comp l r pad =>
      flatChars l ++ (if pad then [' '] else []) ++ flatChars r

/-- Flat width of a breakable object. -/
def flatW (o : DocumentObject) : Nat := (flatChars o).length

/-- Whether an object contains a break point (a `_Comp` node).  Fixed
regions contain none by construction. -/
def hasBrk : DocumentObject → Bool
  | DocumentObject.Text _ => false
  | DocumentObject.Fix _ => false
  | DocumentObject.Grp o => hasBrk o
  | DocumentObject.Seq o => hasBrk o
  | DocumentObject.Nest o => hasBrk o
  | DocumentObject.Pack _ o => hasBrk o
  | DocumentObject.Comp _ _ _ => true

/-- Width of the leading segment of an object: its flat width up to the
first break point, or its whole flat width when it contains none.
This is the quantity the spec's fit lookahead measures when it looks
from a point to the next break opportunity. -/
def leadW : DocumentObject → Nat
  | DocumentObject.Text d => d.length
  | DocumentObject.Fix f => fixW f
  | DocumentObject.Grp o => leadW o
  | DocumentObject.Seq o => leadW o
  | DocumentObject.Nest o => leadW o
  | DocumentObject.Pack _ o => leadW o
  | DocumentObject.Comp l _ _ => if hasBrk l then leadW l else flatW l

/-! ## Layer 2: the renderer, modelled from the spec.

Modelled from the spec: the bodies of `_measure`, `_next_comp`,
`_visit_obj` and `_visit_doc` are missing from the source (ellipsis
stubs), so the single-pass renderer below follows section 4.3 of the
spec.  The render state keeps the source's `head`/`line`/`lvl`/`pos`
fields (the `marks` memoisation dictionary is omitted: the spec calls
it a pure optimisation that must never change output) and additionally
accumulates the output as a list of finished lines plus the current
line, carries a counter of decision-scope identifiers, and records
every break-point decision as a `(scope, broken)` pair, so that the
spec's per-scope properties can be stated about the run. -/

/-- Rendering modes of the modelled renderer: `flat` renders a committed
group with every break point kept flat; `brk` renders a group that
failed its fit check, so every one of its direct break points becomes a
newline; `fill` decides each break point independently against the
remaining width (the behaviour of `Pack`, and of break points outside
any scope); `seqm` is `fill` plus the sticky `line` flag of a
`Sequence` scope. -/
inductive Mode where
  | flat : Mode
  | brk : Mode
  | fill : Mode
  | seqm : Mode
  deriving DecidableEq, Repr

/-- State of the modelled renderer (spec section 3, Render state):
`head`, `line`, `lvl` and `pos` mirror `_State`; `out` is the list of
finished lines and `cur` the line under construction; `nextId` and
`trace` are ghost bookkeeping recording each scope's break decisions. -/
structure RState where
  head : Bool
  line : Bool
  lvl : Nat
  pos : Nat
  out : List (List Char)
  cur : List Char
  nextId : Nat
  trace : List (Nat × Bool)
  deriving DecidableEq, Repr

/-- Initial render state, mirroring `_init` of the source (line head, no
sticky break, level and column zero) with empty output. -/
def initR : RState :=
  { head := true, line := false, lvl := 0, pos := 0,
    out := [], cur := [], nextId := 1, trace := [] }

/-- Padding owed at the current position, mirroring `_offset` of the
source: at a line head, spaces up to the indentation level. -/
def offsetR (st : RState) : Nat := if st.head then st.lvl - st.pos else 0

/-- Emit raw characters: pad to the indentation level when at a line
head (spec section 3, invariant on `column`), append, advance the
column, leave the line head. -/
def emits (cs : List Char) (st : RState) : RState :=
  { st with
    cur := st.cur ++ List.replicate (offsetR st) ' ' ++ cs,
    pos := st.pos + offsetR st + cs.length,
    head := false }

/-- Emit a newline, mirroring `_newline` of the source: the current line
is finished, the column is reset to zero, the line head is set. -/
def emitNL (st : RState) : RState :=
  { st with out := st.out ++ [st.cur], cur := [], pos := 0, head := true }

/-- Indentation update on entering a `Nest` scope.  For `0 < tab` this is
exactly the formula of `_indent` in the source,
`lvl + (tab - lvl % tab)`: the smallest multiple of `tab` strictly
above `lvl`.  Modelled from the spec: for `tab ≤ 0` the source falls
through to undefined arithmetic (see `_indent`), and the spec (section
9) directs implementations to treat non-positive `tab` as indentation
disabled, which is the behaviour modelled here. -/
def nestLvl (tab : Int) (lvl : Nat) : Nat :=
  if tab ≤ 0 then lvl else lvl + (tab - (lvl : Int) % tab).toNat

/-- Fit lookahead at a break point (the model of `_next_comp`): the
column after the left part, plus the pad, plus the leading segment of
the right part, and, when the right part contains no further break
point, the measured continuation past the node (`after`).  The break
decision of `_should_break` in the source is `width < _next_comp(...)`
preceded by the sticky-flag short-circuit. -/
def breakFit (width : Int) (st : RState) (pad : Bool) (r : DocumentObject) (after : Nat) : Bool :=
  width < (st.pos : Int) + (if pad then 1 else 0) + leadW r + (if hasBrk r then 0 else after)

/-- Modelled from the spec: the single-pass renderer over the canonical
tree (spec section 4.3), replacing the stubbed `_visit_obj`.  `after`
is the flat width of the continuation up to the next break opportunity
past this object (the lookahead that the spec requires to cross node
boundaries); `sid` is the identifier of the enclosing decision scope.
A `Grp` measures its flat content plus the continuation and commits
its whole scope to flat or broken rendering; a `Seq` opens a scope
with the sticky flag cleared, and the flag, once set by a break, forces
every later break point of the scope to break; a `Pack` opens a scope
whose break points are decided independently; a `Nest` raises the
indentation level for its subtree and restores it on exit; a `Comp` is
the break point itself: left part, decision, newline or pad, right
part. -/
def visit (w : Int) (tab : Int) : Mode → DocumentObject → Nat → Nat → RState → RState
  | _, DocumentObject.Text d, _, _, st => emits d.data st
  | _, DocumentObject.Fix f, _, _, st => emits (fixChars f) st
  | m, DocumentObject.Grp o, after, sid, st =>
      match m with
      | Mode.flat => visit w tab Mode.flat o after sid st
      | _ =>
          let gid := st.nextId
          let st0 := { st with nextId := gid + 1 }
          let r :=
            if ((st.pos : Int) + offsetR st + flatW o + after ≤ w) then
              visit w tab Mode.flat o after gid st0
            else
              visit w tab Mode.brk o after gid st0
          { r with line := st.line }
  | m, DocumentObject.Seq o, after, sid, st =>
      match m with
      | Mode.flat => visit w tab Mode.flat o after sid st
      | _ =>
          let gid := st.nextId
          let r := visit w tab Mode.seqm o after gid { st with nextId := gid + 1, line := false }
          { r with line := st.line }
  | m, DocumentObject.Pack _ o, after, sid, st =>
      match m with
      | Mode.flat => visit w tab Mode.flat o after sid st
      | _ =>
          let gid := st.nextId
          let r := visit w tab Mode.fill o after gid { st with nextId := gid + 1, line := false }
          { r with line := st.line }
  | m, DocumentObject.Nest o, after, sid, st =>
      match m with
      | Mode.flat => visit w tab Mode.flat o after sid st
      | _ =>
          let r := visit w tab m o after sid { st with lvl := nestLvl tab st.lvl }
          { r with lvl := st.lvl }
  | m, DocumentObject.Comp l rr pad, after, sid, st =>
      let st1 := visit w tab m l 0 sid st
      let b : Bool :=
        match m with
        | Mode.flat => false
        | Mode.brk => true
        | Mode.seqm => st1.line || breakFit w st1 pad rr after
        | Mode.fill => breakFit w st1 pad rr after
      let st2 := { st1 with trace := st1.trace ++ [(sid, b)] }
      if b then
        let st3 := emitNL st2
        let st4 := match m with | Mode.seqm => { st3 with line := true } | _ => st3
        visit w tab m rr after sid st4
      else
        visit w tab m rr after sid (emits (if pad then [' '] else []) st2)

/-- Modelled from the spec: the lines produced by rendering a layout —
lower it, render it from the initial state with no continuation, and
take the finished lines followed by the line under construction. -/
def renderLines (l : Layout) (tab : Int) (w : Int) : List String :=
  let fin := visit w tab Mode.fill (lower l) 0 0 initR
  (fin.out ++ [fin.cur]).map (fun cs => String.mk cs)

/-- Modelled from the spec: the spec-level `render(document, tabUnit,
width)` entry point on layouts (spec section 6), replacing the stubbed
traversal of the source: the rendered lines joined by newlines. -/
def renderSpec (l : Layout) (tab : Int) (w : Int) : String :=
  String.intercalate "\n" (renderLines l tab w)

/-! ## Auxiliary predicate for the width-soundness claims. -/

/-- Whether every atomic `Text` token of a layout has length at most `w`
(the hypothesis of the width-soundness claim as stated). -/
def allTextsLe (w : Int) : Layout → Bool
  | Layout.Null => true
  | Layout.Text d => (d.length : Int) ≤ w
  | Layout.Fix l => allTextsLe w l
  | Layout.Grp l => allTextsLe w l
  | Layout.Seq l => allTextsLe w l
  | Layout.Nest l => allTextsLe w l
  | Layout.Pack l => allTextsLe w l
  | Layout.Line l r => allTextsLe w l && allTextsLe w r
  | Layout.Comp l r _ _ => allTextsLe w l && allTextsLe w r

/-- The amended width-soundness hypothesis: every atomic leaf — a `Text`
token or a whole flattened `Fix` region — fits within `w` together
with the indentation level in force at it (levels follow the `Nest`
rounding of the renderer).  This is the spec's own overflow clause
made precise: overflow can come only from an unbreakable token or from
indentation consuming columns. -/
def fitsB (w tab : Int) : Nat → DocumentObject → Bool
  | lvl, DocumentObject.Text d => decide ((lvl : Int) + d.length ≤ w)
  | lvl, DocumentObject.Fix f => decide ((lvl : Int) + fixW f ≤ w)
  | lvl, DocumentObject.Grp o => fitsB w tab lvl o
  | lvl, DocumentObject.Seq o => fitsB w tab lvl o
  | lvl, DocumentObject.Pack _ o => fitsB w tab lvl o
  | lvl, DocumentObject.Nest o => fitsB w tab (nestLvl tab lvl) o
  | lvl, DocumentObject.Comp l r _ => fitsB w tab lvl l && fitsB w tab lvl r

/-- Projection of a trace entry onto one scope: the decision when the
entry belongs to scope `s`, nothing otherwise. -/
def decAt (s : Nat) (e : Nat × Bool) : Option Bool :=
  if e.1 = s then some e.2 else none

/-- Width invariant of the modelled renderer: every finished line fits in
`w`, the column mirrors the current line's length, the column is zero
at a line head, and the current line also fits in `w`. -/
def INVw (w : Int) (st : RState) : Prop :=
  (∀ lc ∈ st.out, (lc.length : Int) ≤ w) ∧
  st.cur.length = st.pos ∧
  (st.head = true → st.pos = 0) ∧
  (st.pos : Int) ≤ w

/-! ## Claim theorems: the straightforward ones. -/

/-- Claim C10: for every input, `render` fails (Python: raises TypeError)
and never returns a string, because the stubbed `_visit_doc` returns
`None` and the tuple unpacking of that result in `render` fails. -/
theorem c10_render_stub : ∀ (doc : Document) (tab width : Int), render doc tab width = none :=
  fun _ _ _ => rfl

/-- Claim C7 (code bug): on the document of the concrete scenario
`render(fix(lineBreak(text("a"), text("b"))), 2, 1)` the code does not
return the string "a b": `render` fails on every input because its
traversal is stubbed, and the helper `_visit_fix` itself fails on the
fixed composition, because the `_FixComp` branch of its loop appends
the bare right subtree to the pad-tagged work stack and the next
iteration's tuple unpacking of that entry raises TypeError. -/
theorem c7_fix_scenario_code_bug :
    _visit_fix
      (DocumentObjectFix.FixComp (DocumentObjectFix.FixText "a")
        (DocumentObjectFix.FixText "b") true) _init = none ∧
    render
      (Document.Line (DocumentObject.Fix
        (DocumentObjectFix.FixComp (DocumentObjectFix.FixText "a")
          (DocumentObjectFix.FixText "b") true))) 2 1 = none := by
  constructor
  · simp [_visit_fix, _visit_fix_loop]
  · rfl

/-- Claim C2 (code bug): rendering a `Fix`-wrapped layout does not
produce (width-independent) output on the code as written: `render`
fails for every width because its traversal functions are stubs, and
`_visit_fix` fails on every fixed composition (TypeError from
unpacking the bare stack entry pushed by its `_FixComp` branch), so no
fixed region containing a composition is ever rendered at all. -/
theorem c2_fix_idempotence_code_bug :
    (∀ w : Int,
      render
        (Document.Line (DocumentObject.Fix
          (DocumentObjectFix.FixComp (DocumentObjectFix.FixText "ab")
            (DocumentObjectFix.FixText "c") false))) 2 w = none) ∧
    _visit_fix
      (DocumentObjectFix.FixComp (DocumentObjectFix.FixText "ab")
        (DocumentObjectFix.FixText "c") false) _init = none := by
  constructor
  · intro w; rfl
  · simp [_visit_fix, _visit_fix_loop]

/-- Claim C5 (code bug): `_indent` with non-positive `tab` is neither
rejected at the boundary nor treated as "no indentation": the guard
`if tab <= 0: state` in the source is an effect-free expression
statement, so `tab = 0` reaches `state.lvl % tab` and raises
ZeroDivisionError, and `tab = -2` silently drives the indentation
level negative. -/
theorem c5_nonpositive_tab_code_bug :
    _indent 0 _init = none ∧ (_indent (-2) _init).map _State.lvl = some (-2) := by
  constructor
  · rfl
  · rfl

/-- Claim C4, counterexample: the indentation level 0 is already a
multiple of `tab = 2`, yet `_indent` does not leave it unchanged — it
raises it to 2 (the code computes `lvl + (tab - lvl % tab)`, the next
multiple strictly above, never "at") . -/
theorem c4_counterexample :
    _init.lvl % 2 = 0 ∧
    _indent 2 _init = some { _init with lvl := 2 } ∧
    ¬ (_indent 2 _init).map _State.lvl = some 0 := by
  refine ⟨rfl, rfl, ?_⟩
  decide

/-- Claim C4 as amended: for every positive `tab`, entering a `Nest`
scope via `_indent` raises the indentation level to the smallest
multiple of `tab` strictly greater than the current level (a level
that is already a multiple is raised by a full `tab`), leaving the
other state fields unchanged. -/
theorem c4_nest_rounding (tab : Int) (st : _State) (h : 0 < tab) :
    ∃ st2, _indent tab st = some st2 ∧
      st2.lvl % tab = 0 ∧ st.lvl < st2.lvl ∧ st2.lvl ≤ st.lvl + tab ∧
      st2.pos = st.pos ∧ st2.head = st.head := by
  have htne : tab ≠ 0 := ne_of_gt h
  have hfe : Int.fmod st.lvl tab = st.lvl % tab := Int.fmod_eq_emod _ h.le
  have h1 : 0 ≤ st.lvl % tab := Int.emod_nonneg _ htne
  have h2 : st.lvl % tab < tab := Int.emod_lt_of_pos _ h
  have hdecomp : st.lvl % tab + tab * (st.lvl / tab) = st.lvl := Int.emod_add_ediv _ _
  refine ⟨{ st with lvl := st.lvl + (tab - Int.fmod st.lvl tab) }, ?_, ?_, ?_, ?_, rfl, rfl⟩
  · simp [_indent, htne]
  · show (st.lvl + (tab - Int.fmod st.lvl tab)) % tab = 0
    rw [hfe]
    have hmul : st.lvl + (tab - st.lvl % tab) = tab * (st.lvl / tab + 1) := by
      calc st.lvl + (tab - st.lvl % tab)
          = (st.lvl % tab + tab * (st.lvl / tab)) + (tab - st.lvl % tab) := by rw [hdecomp]
        _ = tab * (st.lvl / tab + 1) := by ring
    rw [hmul]
    exact Int.mul_emod_right _ _
  · show st.lvl < st.lvl + (tab - Int.fmod st.lvl tab)
    rw [hfe]; omega
  · show st.lvl + (tab - Int.fmod st.lvl tab) ≤ st.lvl + tab
    rw [hfe]; omega

/-- Witness for `c4_nest_rounding` at `tab = 2` and the initial state. -/
theorem c4_witness :
    (0 : Int) < 2 ∧
    ∃ st2, _indent 2 _init = some st2 ∧
      st2.lvl % 2 = 0 ∧ _init.lvl < st2.lvl ∧ st2.lvl ≤ _init.lvl + 2 ∧
      st2.pos = _init.pos ∧ st2.head = _init.head :=
  ⟨by decide, c4_nest_rounding 2 _init (by decide)⟩

/-- Claim C9, counterexample: a `Text` payload with an embedded line
terminator is accepted silently — `text` wraps it unvalidated, and
lowering (modelled from the spec, which makes lowering total) passes
it through unchanged; no error is produced at either stage. -/
theorem c9_counterexample :
    text "a\nb" = Layout.Text "a\nb" ∧
    ('\n' ∈ ("a\nb" : String).data) ∧
    lower (text "a\nb") = DocumentObject.Text "a\nb" ∧
    lowerFix (text "a\nb") = DocumentObjectFix.FixText "a\nb" := by
  refine ⟨rfl, ?_, rfl, rfl⟩
  decide

/-- Claim C9 as amended: constructing a `Text` layout from any string —
line terminators included — is accepted silently: `text` returns the
bare `Text` node and lowering maps it through unchanged; no rejection
happens at construction or lowering time. -/
theorem c9_embedded_newline_accepted :
    ∀ s : String, text s = Layout.Text s ∧
      lower (text s) = DocumentObject.Text s ∧
      lowerFix (text s) = DocumentObjectFix.FixText s :=
  fun _ => ⟨rfl, rfl, rfl⟩

/-- Claim C1, counterexample: two documents whose every atomic `Text`
token fits in the width, for which the modelled renderer still emits
an overlong line — one through an unbreakable `Fix` region (the
spec's own scenario 4), one through indentation consuming columns. -/
theorem c1_counterexample :
    allTextsLe 1 (fix (line (text "a") (text "b"))) = true ∧
    renderLines (fix (line (text "a") (text "b"))) 2 1 = ["a b"] ∧
    ¬ ((("a b" : String).length : Int) ≤ 1) ∧
    allTextsLe 2 (nest (line (text "a") (text "bb"))) = true ∧
    renderLines (nest (line (text "a") (text "bb"))) 2 2 = ["  a", "  bb"] ∧
    ¬ ((("  a" : String).length : Int) ≤ 2) := by
  refine ⟨rfl, ?_, by decide, rfl, ?_, by decide⟩
  · rfl
  · rfl


/-! ## Equation lemmas for the modelled renderer. -/

/-- Unfolding `visit` at a text leaf. -/
theorem visit_text (w tab : Int) (m : Mode) (d : String) (a sid : Nat) (st : RState) :
    visit w tab m (DocumentObject.Text d) a sid st = emits d.data st := rfl

/-- Unfolding `visit` at a fixed region. -/
theorem visit_fixr (w tab : Int) (m : Mode) (f : DocumentObjectFix) (a sid : Nat) (st : RState) :
    visit w tab m (DocumentObject.Fix f) a sid st = emits (fixChars f) st := rfl

/-- Unfolding `visit` at a group in flat mode. -/
theorem visit_grp_flat (w tab : Int) (o : DocumentObject) (a sid : Nat) (st : RState) :
    visit w tab Mode.flat (DocumentObject.Grp o) a sid st
      = visit w tab Mode.flat o a sid st := rfl

/-- Unfolding `visit` at a sequence in flat mode. -/
theorem visit_seq_flat (w tab : Int) (o : DocumentObject) (a sid : Nat) (st : RState) :
    visit w tab Mode.flat (DocumentObject.Seq o) a sid st
      = visit w tab Mode.flat o a sid st := rfl

/-- Unfolding `visit` at a pack in flat mode. -/
theorem visit_pack_flat (w tab : Int) (i : Nat) (o : DocumentObject) (a sid : Nat) (st : RState) :
    visit w tab Mode.flat (DocumentObject.Pack i o) a sid st
      = visit w tab Mode.flat o a sid st := rfl

/-- Unfolding `visit` at a nest in flat mode. -/
theorem visit_nest_flat (w tab : Int) (o : DocumentObject) (a sid : Nat) (st : RState) :
    visit w tab Mode.flat (DocumentObject.Nest o) a sid st
      = visit w tab Mode.flat o a sid st := rfl

/-- Unfolding `visit` at a group in a non-flat mode: a fresh scope is
opened and the whole group commits to flat or broken rendering by the
fit check over its flat width plus the continuation. -/
theorem visit_grp_nf (w tab : Int) (m : Mode) (hm : m ≠ Mode.flat) (o : DocumentObject)
    (a sid : Nat) (st : RState) :
    visit w tab m (DocumentObject.Grp o) a sid st
      = { (if ((st.pos : Int) + offsetR st + flatW o + a ≤ w) then
            visit w tab Mode.flat o a st.nextId { st with nextId := st.nextId + 1 }
          else
            visit w tab Mode.brk o a st.nextId { st with nextId := st.nextId + 1 })
          with line := st.line } := by
  cases m with
  | flat => exact absurd rfl hm
  | brk => rfl
  | fill => rfl
  | seqm => rfl

/-- Unfolding `visit` at a sequence in a non-flat mode: a fresh scope is
opened with the sticky flag cleared, and the flag is restored on exit. -/
theorem visit_seq_nf (w tab : Int) (m : Mode) (hm : m ≠ Mode.flat) (o : DocumentObject)
    (a sid : Nat) (st : RState) :
    visit w tab m (DocumentObject.Seq o) a sid st
      = { visit w tab Mode.seqm o a st.nextId { st with nextId := st.nextId + 1, line := false }
          with line := st.line } := by
  cases m with
  | flat => exact absurd rfl hm
  | brk => rfl
  | fill => rfl
  | seqm => rfl

/-- Unfolding `visit` at a pack in a non-flat mode: a fresh scope is
opened whose break points are decided independently. -/
theorem visit_pack_nf (w tab : Int) (m : Mode) (hm : m ≠ Mode.flat) (i : Nat)
    (o : DocumentObject) (a sid : Nat) (st : RState) :
    visit w tab m (DocumentObject.Pack i o) a sid st
      = { visit w tab Mode.fill o a st.nextId { st with nextId := st.nextId + 1, line := false }
          with line := st.line } := by
  cases m with
  | flat => exact absurd rfl hm
  | brk => rfl
  | fill => rfl
  | seqm => rfl

/-- Unfolding `visit` at a nest in a non-flat mode: the indentation level
is raised for the subtree and restored on exit. -/
theorem visit_nest_nf (w tab : Int) (m : Mode) (hm : m ≠ Mode.flat) (o : DocumentObject)
    (a sid : Nat) (st : RState) :
    visit w tab m (DocumentObject.Nest o) a sid st
      = { visit w tab m o a sid { st with lvl := nestLvl tab st.lvl } with lvl := st.lvl } := by
  cases m with
  | flat => exact absurd rfl hm
  | brk => rfl
  | fill => rfl
  | seqm => rfl

/-- Unfolding `visit` at a break point in flat mode: the decision is flat. -/
theorem visit_comp_flat (w tab : Int) (l r : DocumentObject) (pad : Bool)
    (a sid : Nat) (st : RState) :
    visit w tab Mode.flat (DocumentObject.Comp l r pad) a sid st
      = visit w tab Mode.flat r a sid
          (emits (if pad then [' '] else [])
            { visit w tab Mode.flat l 0 sid st with
              trace := (visit w tab Mode.flat l 0 sid st).trace ++ [(sid, false)] }) := rfl

/-- Unfolding `visit` at a break point in broken mode: the decision is a
newline. -/
theorem visit_comp_brk (w tab : Int) (l r : DocumentObject) (pad : Bool)
    (a sid : Nat) (st : RState) :
    visit w tab Mode.brk (DocumentObject.Comp l r pad) a sid st
      = visit w tab Mode.brk r a sid
          (emitNL
            { visit w tab Mode.brk l 0 sid st with
              trace := (visit w tab Mode.brk l 0 sid st).trace ++ [(sid, true)] }) := rfl

/-- Unfolding `visit` at a break point in fill mode: the decision is the
independent fit check. -/
theorem visit_comp_fill (w tab : Int) (l r : DocumentObject) (pad : Bool)
    (a sid : Nat) (st : RState) :
    visit w tab Mode.fill (DocumentObject.Comp l r pad) a sid st
      = (if breakFit w (visit w tab Mode.fill l 0 sid st) pad r a then
           visit w tab Mode.fill r a sid (emitNL
             { visit w tab Mode.fill l 0 sid st with
               trace := (visit w tab Mode.fill l 0 sid st).trace
                 ++ [(sid, breakFit w (visit w tab Mode.fill l 0 sid st) pad r a)] })
         else
           visit w tab Mode.fill r a sid (emits (if pad then [' '] else [])
             { visit w tab Mode.fill l 0 sid st with
               trace := (visit w tab Mode.fill l 0 sid st).trace
                 ++ [(sid, breakFit w (visit w tab Mode.fill l 0 sid st) pad r a)] })) := rfl

/-- Unfolding `visit` at a break point in sequence mode: the decision is
the sticky flag or the fit check, and a break sets the flag. -/
theorem visit_comp_seqm (w tab : Int) (l r : DocumentObject) (pad : Bool)
    (a sid : Nat) (st : RState) :
    visit w tab Mode.seqm (DocumentObject.Comp l r pad) a sid st
      = (if (visit w tab Mode.seqm l 0 sid st).line
            || breakFit w (visit w tab Mode.seqm l 0 sid st) pad r a then
           visit w tab Mode.seqm r a sid
             { emitNL
               { visit w tab Mode.seqm l 0 sid st with
                 trace := (visit w tab Mode.seqm l 0 sid st).trace
                   ++ [(sid, (visit w tab Mode.seqm l 0 sid st).line
                         || breakFit w (visit w tab Mode.seqm l 0 sid st) pad r a)] }
               with line := true }
         else
           visit w tab Mode.seqm r a sid (emits (if pad then [' '] else [])
             { visit w tab Mode.seqm l 0 sid st with
               trace := (visit w tab Mode.seqm l 0 sid st).trace
                 ++ [(sid, (visit w tab Mode.seqm l 0 sid st).line
                       || breakFit w (visit w tab Mode.seqm l 0 sid st) pad r a)] })) := rfl

/-! ## Structural lemmas about the measures. -/

/-- Entering a `Nest` scope never lowers the indentation level. -/
theorem nestLvl_le (tab : Int) (lvl : Nat) : lvl ≤ nestLvl tab lvl := by
  unfold nestLvl
  split
  · exact Nat.le_refl _
  · omega

/-- The flat width of a break-point node in terms of its parts. -/
theorem flatW_comp (l r : DocumentObject) (pad : Bool) :
    flatW (DocumentObject.Comp l r pad)
      = flatW l + (if pad then 1 else 0) + flatW r := by
  cases pad <;> simp [flatW, flatChars] <;> omega

/-- The leading segment of an object is at most its flat width. -/
theorem lead_le_flat (o : DocumentObject) : leadW o ≤ flatW o := by
  induction o with
  | Text d => exact le_rfl
  | Fix f => exact le_rfl
  | Grp o ih => exact ih
  | Seq o ih => exact ih
  | Nest o ih => exact ih
  | Pack i o ih => exact ih
  | Comp l r pad ihl ihr =>
      have hl : flatW l ≤ flatW (DocumentObject.Comp l r pad) := by
        rw [flatW_comp]; omega
      cases hb : hasBrk l with
      | true => simp only [leadW, hb, if_true]; exact le_trans ihl hl
      | false => simp only [leadW, hb]; exact hl

/-- A break-free object rendered at level `lvl` fits whenever the `fitsB`
hypothesis holds: its whole flat width plus the level stays in `w`. -/
theorem fits_flat_nb (w tab : Int) (o : DocumentObject) :
    ∀ lvl : Nat, hasBrk o = false → fitsB w tab lvl o = true →
      (lvl : Int) + flatW o ≤ w := by
  induction o with
  | Text d =>
      intro lvl _ hf
      have h : (lvl : Int) + d.length ≤ w := by simpa [fitsB] using hf
      have he : flatW (DocumentObject.Text d) = d.length := rfl
      rw [he]
      exact h
  | Fix f =>
      intro lvl _ hf
      have h : (lvl : Int) + fixW f ≤ w := by simpa [fitsB] using hf
      simpa [flatW, flatChars, fixW] using h
  | Grp o ih =>
      intro lvl hb hf
      exact ih lvl (by simpa [hasBrk] using hb) (by simpa [fitsB] using hf)
  | Seq o ih =>
      intro lvl hb hf
      exact ih lvl (by simpa [hasBrk] using hb) (by simpa [fitsB] using hf)
  | Nest o ih =>
      intro lvl hb hf
      have h := ih (nestLvl tab lvl) (by simpa [hasBrk] using hb) (by simpa [fitsB] using hf)
      have hle : (lvl : Int) ≤ nestLvl tab lvl := by exact_mod_cast nestLvl_le tab lvl
      have he : flatW (DocumentObject.Nest o) = flatW o := rfl
      rw [he]
      omega
  | Pack i o ih =>
      intro lvl hb hf
      exact ih lvl (by simpa [hasBrk] using hb) (by simpa [fitsB] using hf)
  | Comp l r pad ihl ihr =>
      intro lvl hb
      simp [hasBrk] at hb

/-- The `fitsB` hypothesis bounds the leading segment: an object's first
segment, rendered at the level in force, stays within `w`. -/
theorem fits_lead (w tab : Int) (o : DocumentObject) :
    ∀ lvl : Nat, fitsB w tab lvl o = true → (lvl : Int) + leadW o ≤ w := by
  induction o with
  | Text d =>
      intro lvl hf
      have h : (lvl : Int) + d.length ≤ w := by simpa [fitsB] using hf
      simpa [leadW] using h
  | Fix f =>
      intro lvl hf
      have h : (lvl : Int) + fixW f ≤ w := by simpa [fitsB] using hf
      simpa [leadW] using h
  | Grp o ih => intro lvl hf; exact ih lvl (by simpa [fitsB] using hf)
  | Seq o ih => intro lvl hf; exact ih lvl (by simpa [fitsB] using hf)
  | Nest o ih =>
      intro lvl hf
      have h := ih (nestLvl tab lvl) (by simpa [fitsB] using hf)
      have hle : (lvl : Int) ≤ nestLvl tab lvl := by exact_mod_cast nestLvl_le tab lvl
      have he : leadW (DocumentObject.Nest o) = leadW o := rfl
      rw [he]
      omega
  | Pack i o ih => intro lvl hf; exact ih lvl (by simpa [fitsB] using hf)
  | Comp l r pad ihl ihr =>
      intro lvl hf
      simp only [fitsB, Bool.and_eq_true] at hf
      cases hb : hasBrk l with
      | true =>
          have h := ihl lvl hf.1
          simpa [leadW, hb] using h
      | false =>
          have h := fits_flat_nb w tab l lvl hb hf.1
          simpa [leadW, hb] using h

/-! ## Flat mode renders exactly the flat characters. -/

/-- Characterisation of flat-mode rendering: no line is ever finished, the
flat characters (after the owed line-head padding) are appended to the
current line, the column advances by exactly their width, and every
break decision recorded belongs to the given scope and is flat. -/
theorem visit_flat_spec (w tab : Int) (o : DocumentObject) :
    ∀ (a sid : Nat) (st : RState),
      (visit w tab Mode.flat o a sid st).out = st.out ∧
      (visit w tab Mode.flat o a sid st).cur
        = st.cur ++ List.replicate (offsetR st) ' ' ++ flatChars o ∧
      (visit w tab Mode.flat o a sid st).pos = st.pos + offsetR st + flatW o ∧
      (visit w tab Mode.flat o a sid st).head = false ∧
      (visit w tab Mode.flat o a sid st).lvl = st.lvl ∧
      (visit w tab Mode.flat o a sid st).line = st.line ∧
      (visit w tab Mode.flat o a sid st).nextId = st.nextId ∧
      ∃ ds, (visit w tab Mode.flat o a sid st).trace = st.trace ++ ds ∧
        ∀ e ∈ ds, e = (sid, false) := by
  induction o with
  | Text d =>
      intro a sid st
      rw [visit_text]
      refine ⟨rfl, rfl, ?_, rfl, rfl, rfl, rfl, [], by simp [emits], by simp⟩
      have he : flatW (DocumentObject.Text d) = d.data.length := rfl
      rw [he]
      simp [emits]
  | Fix f =>
      intro a sid st
      rw [visit_fixr]
      refine ⟨rfl, rfl, ?_, rfl, rfl, rfl, rfl, [], by simp [emits], by simp⟩
      simp [emits, flatW, flatChars, fixW]
  | Grp o ih => intro a sid st; rw [visit_grp_flat]; exact ih a sid st
  | Seq o ih => intro a sid st; rw [visit_seq_flat]; exact ih a sid st
  | Nest o ih => intro a sid st; rw [visit_nest_flat]; exact ih a sid st
  | Pack i o ih => intro a sid st; rw [visit_pack_flat]; exact ih a sid st
  | Comp l r pad ihl ihr =>
      intro a sid st
      obtain ⟨ho1, hc1, hp1, hh1, hl1, hli1, hn1, ds1, ht1, hds1⟩ := ihl 0 sid st
      rw [visit_comp_flat]
      set st1 := visit w tab Mode.flat l 0 sid st with hst1
      set st2 : RState := { st1 with trace := st1.trace ++ [(sid, false)] } with hst2
      set st5 := emits (if pad then [' '] else []) st2 with hst5
      obtain ⟨ho2, hc2, hp2, hh2, hl2, hli2, hn2, ds2, ht2, hds2⟩ := ihr a sid st5
      have hoff2 : offsetR st2 = 0 := by
        simp [offsetR, hst2, hh1]
      have hpadlen : (if pad then [' '] else []).length = (if pad then 1 else 0) := by
        cases pad <;> simp
      have h5out : st5.out = st.out := by simp [hst5, emits, hst2, ho1]
      have h5cur : st5.cur = st1.cur ++ (if pad then [' '] else []) := by
        simp [hst5, emits, hoff2, hst2]
      have h5pos : st5.pos = st1.pos + (if pad then 1 else 0) := by
        simp [hst5, emits, hoff2, hst2, hpadlen]
      have h5head : st5.head = false := by simp [hst5, emits]
      have h5lvl : st5.lvl = st.lvl := by simp [hst5, emits, hst2, hl1]
      have h5line : st5.line = st.line := by simp [hst5, emits, hst2, hli1]
      have h5next : st5.nextId = st.nextId := by simp [hst5, emits, hst2, hn1]
      have h5trace : st5.trace = st.trace ++ (ds1 ++ [(sid, false)]) := by
        simp [hst5, emits, hst2, ht1]
      have hoff5 : offsetR st5 = 0 := by simp [offsetR, h5head]
      refine ⟨?_, ?_, ?_, hh2, ?_, ?_, ?_, ds1 ++ [(sid, false)] ++ ds2, ?_, ?_⟩
      · rw [ho2, h5out]
      · rw [hc2, h5cur, hc1, hoff5]
        cases pad <;> simp [flatChars, List.append_assoc]
      · rw [hp2, h5pos, hp1, hoff5, flatW_comp]
        omega
      · rw [hl2, h5lvl]
      · rw [hli2, h5line]
      · rw [hn2, h5next]
      · rw [ht2, h5trace]
        simp [List.append_assoc]
      · intro e he
        simp only [List.append_assoc, List.mem_append, List.mem_singleton] at he
        rcases he with he | he | he
        · exact hds1 e he
        · exact he
        · exact hds2 e he

/-! ## The width invariant. -/

/-- Finishing a line preserves the width invariant: the line moved to
`out` is the current line, whose length the invariant already bounds. -/
theorem INVw_emitNL (w : Int) (hw : 0 ≤ w) (st : RState) (h : INVw w st) :
    INVw w (emitNL st) := by
  obtain ⟨h1, h2, h3, h4⟩ := h
  refine ⟨?_, ?_, ?_, ?_⟩
  · intro lc hlc
    simp only [emitNL, List.mem_append, List.mem_singleton] at hlc
    rcases hlc with hlc | hlc
    · exact h1 lc hlc
    · subst hlc
      rw [h2]
      exact h4
  · simp [emitNL]
  · simp [emitNL]
  · simpa [emitNL] using hw

/-- When not at a line head, no padding is owed. -/
theorem offsetR_head_false (st : RState) (h : st.head = false) : offsetR st = 0 := by
  simp [offsetR, h]

/-- Width soundness of the modelled renderer in every non-flat mode: when
every atomic leaf fits at its indentation level (`fitsB`) and the
leading segment fits from the current column, rendering preserves the
width invariant, restores the indentation level, and leaves the line
head. -/
theorem visit_width (w tab : Int) (hw : 0 ≤ w) (o : DocumentObject) :
    ∀ (m : Mode) (a sid : Nat) (st : RState), m ≠ Mode.flat →
      INVw w st → fitsB w tab st.lvl o = true →
      (st.pos : Int) + offsetR st + leadW o ≤ w →
      INVw w (visit w tab m o a sid st) ∧
      (visit w tab m o a sid st).lvl = st.lvl ∧
      (visit w tab m o a sid st).head = false := by
  induction o with
  | Text d =>
      intro m a sid st hm hinv hfit hpre
      obtain ⟨h1, h2, h3, h4⟩ := hinv
      rw [visit_text]
      have hld : (leadW (DocumentObject.Text d) : Int) = (d.data.length : Int) := rfl
      rw [hld] at hpre
      refine ⟨⟨?_, ?_, ?_, ?_⟩, rfl, rfl⟩
      · simpa [emits] using h1
      · simp only [emits, List.length_append, List.length_replicate, h2]
      · simp [emits]
      · simp only [emits]
        push_cast
        omega
  | Fix f =>
      intro m a sid st hm hinv hfit hpre
      obtain ⟨h1, h2, h3, h4⟩ := hinv
      rw [visit_fixr]
      have hld : (leadW (DocumentObject.Fix f) : Int) = ((fixChars f).length : Int) := rfl
      rw [hld] at hpre
      refine ⟨⟨?_, ?_, ?_, ?_⟩, rfl, rfl⟩
      · simpa [emits] using h1
      · simp only [emits, List.length_append, List.length_replicate, h2]
      · simp [emits]
      · simp only [emits]
        push_cast
        omega
  | Grp o ih =>
      intro m a sid st hm hinv hfit hpre
      rw [visit_grp_nf w tab m hm]
      by_cases hchk : (st.pos : Int) + offsetR st + flatW o + a ≤ w
      · rw [if_pos hchk]
        obtain ⟨ho1, hc1, hp1, hh1, hl1, hli1, hn1, _⟩ :=
          visit_flat_spec w tab o a st.nextId { st with nextId := st.nextId + 1 }
        obtain ⟨h1, h2, h3, h4⟩ := hinv
        have hoffe : offsetR { st with nextId := st.nextId + 1 } = offsetR st := rfl
        refine ⟨⟨?_, ?_, ?_, ?_⟩, ?_, ?_⟩
        · intro lc hlc
          apply h1
          simpa [ho1] using hlc
        · show (visit w tab Mode.flat o a st.nextId _).cur.length
            = (visit w tab Mode.flat o a st.nextId _).pos
          rw [hc1, hp1, hoffe]
          simp only [List.length_append, List.length_replicate, flatW]
          omega
        · intro hhd
          exact absurd (by simpa using hhd) (by simp [hh1])
        · show ((visit w tab Mode.flat o a st.nextId _).pos : Int) ≤ w
          rw [hp1, hoffe]
          push_cast
          omega
        · simpa using hl1
        · simpa using hh1
      · rw [if_neg hchk]
        have hres := ih Mode.brk a st.nextId { st with nextId := st.nextId + 1 }
          (by simp) hinv hfit hpre
        exact ⟨hres.1, hres.2.1, hres.2.2⟩
  | Seq o ih =>
      intro m a sid st hm hinv hfit hpre
      rw [visit_seq_nf w tab m hm]
      have hres := ih Mode.seqm a st.nextId { st with nextId := st.nextId + 1, line := false }
        (by simp) hinv hfit hpre
      exact ⟨hres.1, hres.2.1, hres.2.2⟩
  | Pack i o ih =>
      intro m a sid st hm hinv hfit hpre
      rw [visit_pack_nf w tab m hm]
      have hres := ih Mode.fill a st.nextId { st with nextId := st.nextId + 1, line := false }
        (by simp) hinv hfit hpre
      exact ⟨hres.1, hres.2.1, hres.2.2⟩
  | Nest o ih =>
      intro m a sid st hm hinv hfit hpre
      rw [visit_nest_nf w tab m hm]
      have hpre2 : (st.pos : Int) + offsetR { st with lvl := nestLvl tab st.lvl } + leadW o ≤ w := by
        rcases Bool.eq_false_or_eq_true st.head with hh | hh
        · have hp0 : st.pos = 0 := hinv.2.2.1 hh
          have hfl := fits_lead w tab o (nestLvl tab st.lvl) hfit
          simp only [offsetR, hh, if_true, hp0]
          push_cast
          omega
        · have h0 : offsetR { st with lvl := nestLvl tab st.lvl } = 0 := by
            simp [offsetR, hh]
          have h0b : offsetR st = 0 := by simp [offsetR, hh]
          rw [h0]
          rw [h0b] at hpre
          exact hpre
      have hres := ih m a sid { st with lvl := nestLvl tab st.lvl } hm hinv hfit hpre2
      refine ⟨hres.1, by simp, hres.2.2⟩
  | Comp l r pad ihl ihr =>
      intro m a sid st hm hinv hfit hpre
      have hfl : fitsB w tab st.lvl l = true ∧ fitsB w tab st.lvl r = true := by
        have hx := hfit
        simp only [fitsB, Bool.and_eq_true] at hx
        exact hx
      have hprel : (st.pos : Int) + offsetR st + leadW l ≤ w := by
        have hlf : (leadW l : Int) ≤ (flatW l : Int) := by exact_mod_cast lead_le_flat l
        cases hb : hasBrk l with
        | true =>
            have he : leadW (DocumentObject.Comp l r pad) = leadW l := by simp [leadW, hb]
            rw [he] at hpre
            exact hpre
        | false =>
            have he : leadW (DocumentObject.Comp l r pad) = flatW l := by simp [leadW, hb]
            rw [he] at hpre
            omega
      cases m with
      | flat => exact absurd rfl hm
      | brk =>
          obtain ⟨hinv1, hlvl1, hhead1⟩ := ihl Mode.brk 0 sid st (by simp) hinv hfl.1 hprel
          rw [visit_comp_brk]
          have hinv3 : INVw w (emitNL
              { visit w tab Mode.brk l 0 sid st with
                trace := (visit w tab Mode.brk l 0 sid st).trace ++ [(sid, true)] }) :=
            INVw_emitNL w hw _ hinv1
          have hres := ihr Mode.brk a sid _ (by simp) hinv3 (by
              show fitsB w tab (visit w tab Mode.brk l 0 sid st).lvl r = true
              rw [hlvl1]
              exact hfl.2) (by
              show ((0 : Nat) : Int) + offsetR _ + leadW r ≤ w
              have hoff : offsetR (emitNL
                  { visit w tab Mode.brk l 0 sid st with
                    trace := (visit w tab Mode.brk l 0 sid st).trace ++ [(sid, true)] })
                  = (visit w tab Mode.brk l 0 sid st).lvl := by
                simp [offsetR, emitNL]
              rw [hoff, hlvl1]
              have hfr := fits_lead w tab r st.lvl hfl.2
              push_cast
              omega)
          refine ⟨hres.1, ?_, hres.2.2⟩
          rw [hres.2.1]
          show (emitNL _).lvl = st.lvl
          simpa [emitNL] using hlvl1
      | fill =>
          obtain ⟨hinv1, hlvl1, hhead1⟩ := ihl Mode.fill 0 sid st (by simp) hinv hfl.1 hprel
          rw [visit_comp_fill]
          cases hbk : breakFit w (visit w tab Mode.fill l 0 sid st) pad r a with
          | true =>
              rw [if_pos (rfl : (true : Bool) = true)]
              have hinv3 : INVw w (emitNL
                  { visit w tab Mode.fill l 0 sid st with
                    trace := (visit w tab Mode.fill l 0 sid st).trace ++ [(sid, true)] }) :=
                INVw_emitNL w hw _ hinv1
              have hres := ihr Mode.fill a sid _ (by simp) hinv3 (by
                  show fitsB w tab (visit w tab Mode.fill l 0 sid st).lvl r = true
                  rw [hlvl1]
                  exact hfl.2) (by
                  show ((0 : Nat) : Int) + offsetR _ + leadW r ≤ w
                  have hoff : offsetR (emitNL
                      { visit w tab Mode.fill l 0 sid st with
                        trace := (visit w tab Mode.fill l 0 sid st).trace ++ [(sid, true)] })
                      = (visit w tab Mode.fill l 0 sid st).lvl := by
                    simp [offsetR, emitNL]
                  rw [hoff, hlvl1]
                  have hfr := fits_lead w tab r st.lvl hfl.2
                  push_cast
                  omega)
              refine ⟨hres.1, ?_, hres.2.2⟩
              rw [hres.2.1]
              show (emitNL _).lvl = st.lvl
              simpa [emitNL] using hlvl1
          | false =>
              rw [if_neg (by simp : ¬ ((false : Bool) = true))]
              have hnb : (visit w tab Mode.fill l 0 sid st).pos
                  + (if pad then (1 : Int) else 0) + leadW r
                  + (if hasBrk r then (0 : Int) else a) ≤ w := by
                have hx := hbk
                simp only [breakFit, decide_eq_false_iff_not, not_lt] at hx
                convert hx using 2 <;> push_cast <;> ring
              obtain ⟨h1, h2, h3, h4⟩ := hinv1
              have hoff2 : offsetR { visit w tab Mode.fill l 0 sid st with
                  trace := (visit w tab Mode.fill l 0 sid st).trace ++ [(sid, false)] } = 0 := by
                simp [offsetR, hhead1]
              have hpadlen : (if pad then [' '] else []).length = (if pad then 1 else 0) := by
                cases pad <;> simp
              have hinv5 : INVw w (emits (if pad then [' '] else [])
                  { visit w tab Mode.fill l 0 sid st with
                    trace := (visit w tab Mode.fill l 0 sid st).trace ++ [(sid, false)] }) := by
                refine ⟨?_, ?_, ?_, ?_⟩
                · intro lc hlc
                  apply h1
                  simpa [emits] using hlc
                · simp [emits, hoff2, hpadlen, h2]
                · simp [emits]
                · simp only [emits, hoff2, hpadlen]
                  have hl0 : (0 : Int) ≤ leadW r := by positivity
                  have ha0 : (0 : Int) ≤ (a : Int) := by positivity
                  rcases Bool.eq_false_or_eq_true (hasBrk r) with hbr | hbr <;>
                    rw [hbr] at hnb <;> cases pad <;>
                    simp only [Bool.false_eq_true, if_true, if_false, ite_true, ite_false] at hnb ⊢ <;>
                    push_cast at hnb ⊢ <;> omega
              have hres := ihr Mode.fill a sid _ (by simp) hinv5 (by
                  show fitsB w tab (emits _ _).lvl r = true
                  have : (emits (if pad then [' '] else [])
                      { visit w tab Mode.fill l 0 sid st with
                        trace := (visit w tab Mode.fill l 0 sid st).trace ++ [(sid, false)] }).lvl
                      = st.lvl := by simpa [emits] using hlvl1
                  rw [this]
                  exact hfl.2) (by
                  have hoffe : offsetR (emits (if pad then [' '] else [])
                      { visit w tab Mode.fill l 0 sid st with
                        trace := (visit w tab Mode.fill l 0 sid st).trace ++ [(sid, false)] })
                      = 0 := by
                    simp [offsetR, emits]
                  rw [hoffe]
                  show ((_ : Nat) : Int) + 0 + leadW r ≤ w
                  simp only [emits, hoff2, hpadlen]
                  have ha0 : (0 : Int) ≤ (a : Int) := by positivity
                  rcases Bool.eq_false_or_eq_true (hasBrk r) with hbr | hbr <;>
                    rw [hbr] at hnb <;> cases pad <;>
                    simp only [Bool.false_eq_true, if_true, if_false, ite_true, ite_false] at hnb ⊢ <;>
                    push_cast at hnb ⊢ <;> omega)
              refine ⟨hres.1, ?_, hres.2.2⟩
              rw [hres.2.1]
              show (emits _ _).lvl = st.lvl
              simpa [emits] using hlvl1
      | seqm =>
          obtain ⟨hinv1, hlvl1, hhead1⟩ := ihl Mode.seqm 0 sid st (by simp) hinv hfl.1 hprel
          rw [visit_comp_seqm]
          cases hbk : ((visit w tab Mode.seqm l 0 sid st).line
              || breakFit w (visit w tab Mode.seqm l 0 sid st) pad r a) with
          | true =>
              rw [if_pos (rfl : (true : Bool) = true)]
              have hinv3 : INVw w { emitNL
                  { visit w tab Mode.seqm l 0 sid st with
                    trace := (visit w tab Mode.seqm l 0 sid st).trace ++ [(sid, true)] }
                  with line := true } :=
                INVw_emitNL w hw _ hinv1
              have hres := ihr Mode.seqm a sid _ (by simp) hinv3 (by
                  show fitsB w tab (visit w tab Mode.seqm l 0 sid st).lvl r = true
                  rw [hlvl1]
                  exact hfl.2) (by
                  show ((0 : Nat) : Int) + offsetR _ + leadW r ≤ w
                  have hoff : offsetR { emitNL
                      { visit w tab Mode.seqm l 0 sid st with
                        trace := (visit w tab Mode.seqm l 0 sid st).trace ++ [(sid, true)] }
                      with line := true }
                      = (visit w tab Mode.seqm l 0 sid st).lvl := by
                    simp [offsetR, emitNL]
                  rw [hoff, hlvl1]
                  have hfr := fits_lead w tab r st.lvl hfl.2
                  push_cast
                  omega)
              refine ⟨hres.1, ?_, hres.2.2⟩
              rw [hres.2.1]
              show ({ emitNL _ with line := true } : RState).lvl = st.lvl
              simpa [emitNL] using hlvl1
          | false =>
              rw [if_neg (by simp : ¬ ((false : Bool) = true))]
              have hbk2 : breakFit w (visit w tab Mode.seqm l 0 sid st) pad r a = false := by
                rcases Bool.or_eq_false_iff.mp hbk with ⟨_, hx⟩
                exact hx
              have hnb : (visit w tab Mode.seqm l 0 sid st).pos
                  + (if pad then (1 : Int) else 0) + leadW r
                  + (if hasBrk r then (0 : Int) else a) ≤ w := by
                have hx := hbk2
                simp only [breakFit, decide_eq_false_iff_not, not_lt] at hx
                convert hx using 2 <;> push_cast <;> ring
              obtain ⟨h1, h2, h3, h4⟩ := hinv1
              have hoff2 : offsetR { visit w tab Mode.seqm l 0 sid st with
                  trace := (visit w tab Mode.seqm l 0 sid st).trace ++ [(sid, false)] } = 0 := by
                simp [offsetR, hhead1]
              have hpadlen : (if pad then [' '] else []).length = (if pad then 1 else 0) := by
                cases pad <;> simp
              have hinv5 : INVw w (emits (if pad then [' '] else [])
                  { visit w tab Mode.seqm l 0 sid st with
                    trace := (visit w tab Mode.seqm l 0 sid st).trace ++ [(sid, false)] }) := by
                refine ⟨?_, ?_, ?_, ?_⟩
                · intro lc hlc
                  apply h1
                  simpa [emits] using hlc
                · simp [emits, hoff2, hpadlen, h2]
                · simp [emits]
                · simp only [emits, hoff2, hpadlen]
                  have ha0 : (0 : Int) ≤ (a : Int) := by positivity
                  rcases Bool.eq_false_or_eq_true (hasBrk r) with hbr | hbr <;>
                    rw [hbr] at hnb <;> cases pad <;>
                    simp only [Bool.false_eq_true, if_true, if_false, ite_true, ite_false] at hnb ⊢ <;>
                    push_cast at hnb ⊢ <;> omega
              have hres := ihr Mode.seqm a sid _ (by simp) hinv5 (by
                  show fitsB w tab (emits _ _).lvl r = true
                  have : (emits (if pad then [' '] else [])
                      { visit w tab Mode.seqm l 0 sid st with
                        trace := (visit w tab Mode.seqm l 0 sid st).trace ++ [(sid, false)] }).lvl
                      = st.lvl := by simpa [emits] using hlvl1
                  rw [this]
                  exact hfl.2) (by
                  have hoffe : offsetR (emits (if pad then [' '] else [])
                      { visit w tab Mode.seqm l 0 sid st with
                        trace := (visit w tab Mode.seqm l 0 sid st).trace ++ [(sid, false)] })
                      = 0 := by
                    simp [offsetR, emits]
                  rw [hoffe]
                  show ((_ : Nat) : Int) + 0 + leadW r ≤ w
                  simp only [emits, hoff2, hpadlen]
                  have ha0 : (0 : Int) ≤ (a : Int) := by positivity
                  rcases Bool.eq_false_or_eq_true (hasBrk r) with hbr | hbr <;>
                    rw [hbr] at hnb <;> cases pad <;>
                    simp only [Bool.false_eq_true, if_true, if_false, ite_true, ite_false] at hnb ⊢ <;>
                    push_cast at hnb ⊢ <;> omega)
              refine ⟨hres.1, ?_, hres.2.2⟩
              rw [hres.2.1]
              show (emits _ _).lvl = st.lvl
              simpa [emits] using hlvl1

/-- Claim C1 as amended: if `0 ≤ width` and every atomic leaf — every
`Text` token and every flattened `Fix` region — fits within `width`
together with the indentation level in force at it, then no line
emitted by the modelled renderer exceeds `width` columns. -/
theorem c1_width_soundness (l : Layout) (tab w : Int) (hw : 0 ≤ w)
    (hfit : fitsB w tab 0 (lower l) = true) :
    ∀ s ∈ renderLines l tab w, (s.length : Int) ≤ w := by
  intro s hs
  unfold renderLines at hs
  have hinv : INVw w initR := by
    refine ⟨?_, ?_, ?_, ?_⟩
    · intro lc hlc
      simp [initR] at hlc
    · rfl
    · intro _
      rfl
    · simpa [initR] using hw
  have hpre : ((initR.pos : Nat) : Int) + offsetR initR + leadW (lower l) ≤ w := by
    have hlead := fits_lead w tab (lower l) 0 hfit
    have ho : offsetR initR = 0 := rfl
    rw [ho]
    simpa [initR] using hlead
  obtain ⟨⟨h1, h2, h3, h4⟩, -, -⟩ :=
    visit_width w tab hw (lower l) Mode.fill 0 0 initR (by simp) hinv hfit hpre
  simp only [List.map_append, List.map_cons, List.map_nil, List.mem_append,
    List.mem_map, List.mem_cons, List.not_mem_nil, or_false] at hs
  rcases hs with ⟨cs, hcs, rfl⟩ | hs
  · have hlen : (String.mk cs).length = cs.length := rfl
    rw [hlen]
    exact h1 cs hcs
  · subst hs
    have hlen : (String.mk (visit w tab Mode.fill (lower l) 0 0 initR).cur).length
        = (visit w tab Mode.fill (lower l) 0 0 initR).cur.length := rfl
    rw [hlen, h2]
    exact h4

/-- Witness for `c1_width_soundness` on the spec's flat-group scenario. -/
theorem c1_witness :
    (0 : Int) ≤ 5 ∧
    fitsB 5 2 0 (lower (grp (line (text "a") (text "b")))) = true ∧
    ∀ s ∈ renderLines (grp (line (text "a") (text "b"))) 2 5, (s.length : Int) ≤ 5 :=
  ⟨by decide, by decide,
    c1_width_soundness (grp (line (text "a") (text "b"))) 2 5 (by decide) (by decide)⟩

/-! ## Column bookkeeping of the modelled renderer. -/

/-- Emission keeps the column equal to the current line's length. -/
theorem emits_track (cs : List Char) (st : RState) (h : st.cur.length = st.pos) :
    (emits cs st).cur.length = (emits cs st).pos := by
  simp only [emits, List.length_append, List.length_replicate, h]

/-- The column mirrors the current line's length and is zero at a line
head, throughout rendering in every mode. -/
theorem visit_track (w tab : Int) (o : DocumentObject) :
    ∀ (m : Mode) (a sid : Nat) (st : RState),
      st.cur.length = st.pos → (st.head = true → st.pos = 0) →
      (visit w tab m o a sid st).cur.length = (visit w tab m o a sid st).pos ∧
      ((visit w tab m o a sid st).head = true → (visit w tab m o a sid st).pos = 0) := by
  induction o with
  | Text d =>
      intro m a sid st h1 h2
      rw [visit_text]
      exact ⟨emits_track _ _ h1, by simp [emits]⟩
  | Fix f =>
      intro m a sid st h1 h2
      rw [visit_fixr]
      exact ⟨emits_track _ _ h1, by simp [emits]⟩
  | Grp o ih =>
      intro m a sid st h1 h2
      cases m with
      | flat => rw [visit_grp_flat]; exact ih _ a sid st h1 h2
      | brk =>
          rw [visit_grp_nf w tab Mode.brk (by simp)]
          split
          · exact ih Mode.flat a st.nextId _ h1 h2
          · exact ih Mode.brk a st.nextId _ h1 h2
      | fill =>
          rw [visit_grp_nf w tab Mode.fill (by simp)]
          split
          · exact ih Mode.flat a st.nextId _ h1 h2
          · exact ih Mode.brk a st.nextId _ h1 h2
      | seqm =>
          rw [visit_grp_nf w tab Mode.seqm (by simp)]
          split
          · exact ih Mode.flat a st.nextId _ h1 h2
          · exact ih Mode.brk a st.nextId _ h1 h2
  | Seq o ih =>
      intro m a sid st h1 h2
      cases m with
      | flat => rw [visit_seq_flat]; exact ih _ a sid st h1 h2
      | brk => rw [visit_seq_nf w tab Mode.brk (by simp)]; exact ih Mode.seqm a st.nextId _ h1 h2
      | fill => rw [visit_seq_nf w tab Mode.fill (by simp)]; exact ih Mode.seqm a st.nextId _ h1 h2
      | seqm => rw [visit_seq_nf w tab Mode.seqm (by simp)]; exact ih Mode.seqm a st.nextId _ h1 h2
  | Pack i o ih =>
      intro m a sid st h1 h2
      cases m with
      | flat => rw [visit_pack_flat]; exact ih _ a sid st h1 h2
      | brk => rw [visit_pack_nf w tab Mode.brk (by simp)]; exact ih Mode.fill a st.nextId _ h1 h2
      | fill => rw [visit_pack_nf w tab Mode.fill (by simp)]; exact ih Mode.fill a st.nextId _ h1 h2
      | seqm => rw [visit_pack_nf w tab Mode.seqm (by simp)]; exact ih Mode.fill a st.nextId _ h1 h2
  | Nest o ih =>
      intro m a sid st h1 h2
      cases m with
      | flat => rw [visit_nest_flat]; exact ih _ a sid st h1 h2
      | brk => rw [visit_nest_nf w tab Mode.brk (by simp)]; exact ih Mode.brk a sid _ h1 h2
      | fill => rw [visit_nest_nf w tab Mode.fill (by simp)]; exact ih Mode.fill a sid _ h1 h2
      | seqm => rw [visit_nest_nf w tab Mode.seqm (by simp)]; exact ih Mode.seqm a sid _ h1 h2
  | Comp l r pad ihl ihr =>
      intro m a sid st h1 h2
      have hstep1 := ihl m 0 sid st h1 h2
      cases m with
      | flat =>
          rw [visit_comp_flat]
          refine ihr Mode.flat a sid _ ?_ ?_
          · exact emits_track _ _ hstep1.1
          · simp [emits]
      | brk =>
          rw [visit_comp_brk]
          refine ihr Mode.brk a sid _ ?_ ?_
          · simp [emitNL]
          · simp [emitNL]
      | fill =>
          rw [visit_comp_fill]
          split
          · refine ihr Mode.fill a sid _ ?_ ?_
            · simp [emitNL]
            · simp [emitNL]
          · refine ihr Mode.fill a sid _ ?_ ?_
            · exact emits_track _ _ hstep1.1
            · simp [emits]
      | seqm =>
          rw [visit_comp_seqm]
          split
          · refine ihr Mode.seqm a sid _ ?_ ?_
            · simp [emitNL]
            · simp [emitNL]
          · refine ihr Mode.seqm a sid _ ?_ ?_
            · exact emits_track _ _ hstep1.1
            · simp [emits]

/-- Claim C8: the column counter is reset to zero exactly by newline
emission (a newline zeroes the column and starts a fresh empty line at
the line head, and otherwise the column always equals the current
line's length, so it is zero only at a line head), and the first token
emitted after a newline is preceded by padding that brings the column
up to the current indentation level.  The last two conjuncts are the
corresponding facts of the source helpers `_newline` and `_offset`. -/
theorem c8_newline_bookkeeping (w tab : Int) (m : Mode) (o : DocumentObject)
    (a sid : Nat) (st : RState) (d : String) (pst : _State)
    (h1 : st.cur.length = st.pos) (h2 : st.head = true → st.pos = 0) :
    ((emitNL st).pos = 0 ∧ (emitNL st).head = true ∧ (emitNL st).cur = []) ∧
    ((visit w tab m o a sid st).cur.length = (visit w tab m o a sid st).pos ∧
      ((visit w tab m o a sid st).head = true → (visit w tab m o a sid st).pos = 0)) ∧
    (st.head = true →
      (visit w tab m (DocumentObject.Text d) a sid st).cur
          = st.cur ++ List.replicate st.lvl ' ' ++ d.data ∧
      (visit w tab m (DocumentObject.Text d) a sid st).pos = st.lvl + d.length) ∧
    ((_newline pst).pos = 0 ∧ (_newline pst).head = true) ∧
    (pst.head = true → _offset pst = max 0 (pst.lvl - pst.pos)) := by
  refine ⟨⟨rfl, rfl, rfl⟩, visit_track w tab o m a sid st h1 h2, ?_, ⟨rfl, rfl⟩, ?_⟩
  · intro hh
    have hp0 : st.pos = 0 := h2 hh
    have hoff : offsetR st = st.lvl := by
      simp [offsetR, hh, hp0]
    rw [visit_text]
    constructor
    · simp [emits, hoff]
    · simp [emits, hoff, hp0]
  · intro hh
    simp [_offset, hh]

/-- Witness for `c8_newline_bookkeeping` at the initial state. -/
theorem c8_witness :
    (initR.cur.length = initR.pos ∧ (initR.head = true → initR.pos = 0)) ∧
    (((emitNL initR).pos = 0 ∧ (emitNL initR).head = true ∧ (emitNL initR).cur = []) ∧
      ((visit 8 2 Mode.fill (DocumentObject.Text "hi") 0 0 initR).cur.length
          = (visit 8 2 Mode.fill (DocumentObject.Text "hi") 0 0 initR).pos ∧
        ((visit 8 2 Mode.fill (DocumentObject.Text "hi") 0 0 initR).head = true →
          (visit 8 2 Mode.fill (DocumentObject.Text "hi") 0 0 initR).pos = 0)) ∧
      (initR.head = true →
        (visit 8 2 Mode.fill (DocumentObject.Text "ab") 0 0 initR).cur
            = initR.cur ++ List.replicate initR.lvl ' ' ++ ("ab" : String).data ∧
        (visit 8 2 Mode.fill (DocumentObject.Text "ab") 0 0 initR).pos
            = initR.lvl + ("ab" : String).length) ∧
      ((_newline _init).pos = 0 ∧ (_newline _init).head = true) ∧
      (_init.head = true → _offset _init = max 0 (_init.lvl - _init.pos))) :=
  ⟨⟨by decide, by decide⟩,
    c8_newline_bookkeeping 8 2 Mode.fill (DocumentObject.Text "hi") 0 0 initR "ab" _init
      (by decide) (by decide)⟩

/-! ## Decision traces: scope identifiers. -/

/-- Rendering only appends to the decision trace, every appended decision
belongs either to the given scope or to a scope opened afterwards, and
the scope counter never decreases. -/
theorem visit_trace (w tab : Int) (o : DocumentObject) :
    ∀ (m : Mode) (a s : Nat) (st : RState),
      ∃ ds, (visit w tab m o a s st).trace = st.trace ++ ds ∧
        (∀ e ∈ ds, e.1 = s ∨ st.nextId ≤ e.1) ∧
        st.nextId ≤ (visit w tab m o a s st).nextId := by
  induction o with
  | Text d =>
      intro m a s st
      rw [visit_text]
      exact ⟨[], by simp [emits], by simp, le_refl _⟩
  | Fix f =>
      intro m a s st
      rw [visit_fixr]
      exact ⟨[], by simp [emits], by simp, le_refl _⟩
  | Grp o ih =>
      intro m a s st
      cases m with
      | flat => rw [visit_grp_flat]; exact ih Mode.flat a s st
      | brk =>
          rw [visit_grp_nf w tab Mode.brk (by simp)]
          split
          all_goals
            obtain ⟨ds, h1, h2, h3⟩ := ih _ a st.nextId { st with nextId := st.nextId + 1 }
            exact ⟨ds, by simpa using h1, fun e he => Or.inr (by
                have h2x : e.1 = st.nextId ∨ st.nextId + 1 ≤ e.1 := by simpa using h2 e he
                rcases h2x with h | h <;> omega),
              by simpa using le_trans (Nat.le_succ _) h3⟩
      | fill =>
          rw [visit_grp_nf w tab Mode.fill (by simp)]
          split
          all_goals
            obtain ⟨ds, h1, h2, h3⟩ := ih _ a st.nextId { st with nextId := st.nextId + 1 }
            exact ⟨ds, by simpa using h1, fun e he => Or.inr (by
                have h2x : e.1 = st.nextId ∨ st.nextId + 1 ≤ e.1 := by simpa using h2 e he
                rcases h2x with h | h <;> omega),
              by simpa using le_trans (Nat.le_succ _) h3⟩
      | seqm =>
          rw [visit_grp_nf w tab Mode.seqm (by simp)]
          split
          all_goals
            obtain ⟨ds, h1, h2, h3⟩ := ih _ a st.nextId { st with nextId := st.nextId + 1 }
            exact ⟨ds, by simpa using h1, fun e he => Or.inr (by
                have h2x : e.1 = st.nextId ∨ st.nextId + 1 ≤ e.1 := by simpa using h2 e he
                rcases h2x with h | h <;> omega),
              by simpa using le_trans (Nat.le_succ _) h3⟩
  | Seq o ih =>
      intro m a s st
      cases m with
      | flat => rw [visit_seq_flat]; exact ih Mode.flat a s st
      | brk =>
          rw [visit_seq_nf w tab Mode.brk (by simp)]
          obtain ⟨ds, h1, h2, h3⟩ :=
            ih Mode.seqm a st.nextId { st with nextId := st.nextId + 1, line := false }
          exact ⟨ds, by simpa using h1, fun e he => Or.inr (by
                have h2x : e.1 = st.nextId ∨ st.nextId + 1 ≤ e.1 := by simpa using h2 e he
                rcases h2x with h | h <;> omega),
            by simpa using le_trans (Nat.le_succ _) h3⟩
      | fill =>
          rw [visit_seq_nf w tab Mode.fill (by simp)]
          obtain ⟨ds, h1, h2, h3⟩ :=
            ih Mode.seqm a st.nextId { st with nextId := st.nextId + 1, line := false }
          exact ⟨ds, by simpa using h1, fun e he => Or.inr (by
                have h2x : e.1 = st.nextId ∨ st.nextId + 1 ≤ e.1 := by simpa using h2 e he
                rcases h2x with h | h <;> omega),
            by simpa using le_trans (Nat.le_succ _) h3⟩
      | seqm =>
          rw [visit_seq_nf w tab Mode.seqm (by simp)]
          obtain ⟨ds, h1, h2, h3⟩ :=
            ih Mode.seqm a st.nextId { st with nextId := st.nextId + 1, line := false }
          exact ⟨ds, by simpa using h1, fun e he => Or.inr (by
                have h2x : e.1 = st.nextId ∨ st.nextId + 1 ≤ e.1 := by simpa using h2 e he
                rcases h2x with h | h <;> omega),
            by simpa using le_trans (Nat.le_succ _) h3⟩
  | Pack i o ih =>
      intro m a s st
      cases m with
      | flat => rw [visit_pack_flat]; exact ih Mode.flat a s st
      | brk =>
          rw [visit_pack_nf w tab Mode.brk (by simp)]
          obtain ⟨ds, h1, h2, h3⟩ :=
            ih Mode.fill a st.nextId { st with nextId := st.nextId + 1, line := false }
          exact ⟨ds, by simpa using h1, fun e he => Or.inr (by
                have h2x : e.1 = st.nextId ∨ st.nextId + 1 ≤ e.1 := by simpa using h2 e he
                rcases h2x with h | h <;> omega),
            by simpa using le_trans (Nat.le_succ _) h3⟩
      | fill =>
          rw [visit_pack_nf w tab Mode.fill (by simp)]
          obtain ⟨ds, h1, h2, h3⟩ :=
            ih Mode.fill a st.nextId { st with nextId := st.nextId + 1, line := false }
          exact ⟨ds, by simpa using h1, fun e he => Or.inr (by
                have h2x : e.1 = st.nextId ∨ st.nextId + 1 ≤ e.1 := by simpa using h2 e he
                rcases h2x with h | h <;> omega),
            by simpa using le_trans (Nat.le_succ _) h3⟩
      | seqm =>
          rw [visit_pack_nf w tab Mode.seqm (by simp)]
          obtain ⟨ds, h1, h2, h3⟩ :=
            ih Mode.fill a st.nextId { st with nextId := st.nextId + 1, line := false }
          exact ⟨ds, by simpa using h1, fun e he => Or.inr (by
                have h2x : e.1 = st.nextId ∨ st.nextId + 1 ≤ e.1 := by simpa using h2 e he
                rcases h2x with h | h <;> omega),
            by simpa using le_trans (Nat.le_succ _) h3⟩
  | Nest o ih =>
      intro m a s st
      cases m with
      | flat => rw [visit_nest_flat]; exact ih Mode.flat a s st
      | brk =>
          rw [visit_nest_nf w tab Mode.brk (by simp)]
          obtain ⟨ds, h1, h2, h3⟩ := ih Mode.brk a s { st with lvl := nestLvl tab st.lvl }
          exact ⟨ds, by simpa using h1, h2, by simpa using h3⟩
      | fill =>
          rw [visit_nest_nf w tab Mode.fill (by simp)]
          obtain ⟨ds, h1, h2, h3⟩ := ih Mode.fill a s { st with lvl := nestLvl tab st.lvl }
          exact ⟨ds, by simpa using h1, h2, by simpa using h3⟩
      | seqm =>
          rw [visit_nest_nf w tab Mode.seqm (by simp)]
          obtain ⟨ds, h1, h2, h3⟩ := ih Mode.seqm a s { st with lvl := nestLvl tab st.lvl }
          exact ⟨ds, by simpa using h1, h2, by simpa using h3⟩
  | Comp l r pad ihl ihr =>
      intro m a s st
      obtain ⟨ds1, hl1, hl2, hl3⟩ := ihl m 0 s st
      cases m with
      | flat =>
          rw [visit_comp_flat]
          obtain ⟨ds2, hr1, hr2, hr3⟩ := ihr Mode.flat a s
            (emits (if pad then [' '] else [])
              { visit w tab Mode.flat l 0 s st with
                trace := (visit w tab Mode.flat l 0 s st).trace ++ [(s, false)] })
          refine ⟨ds1 ++ [(s, false)] ++ ds2, ?_, ?_, ?_⟩
          · rw [hr1]
            simp [emits, hl1, List.append_assoc]
          · intro e he
            simp only [List.append_assoc, List.mem_append, List.mem_singleton] at he
            rcases he with he | he | he
            · exact hl2 e he
            · subst he; exact Or.inl rfl
            · rcases hr2 e he with h | h
              · exact Or.inl h
              · refine Or.inr (le_trans hl3 ?_)
                simpa [emits] using h
          · refine le_trans hl3 ?_
            have : (emits (if pad then [' '] else [])
                { visit w tab Mode.flat l 0 s st with
                  trace := (visit w tab Mode.flat l 0 s st).trace ++ [(s, false)] }).nextId
                = (visit w tab Mode.flat l 0 s st).nextId := by simp [emits]
            rw [← this]
            exact hr3
      | brk =>
          rw [visit_comp_brk]
          obtain ⟨ds2, hr1, hr2, hr3⟩ := ihr Mode.brk a s
            (emitNL
              { visit w tab Mode.brk l 0 s st with
                trace := (visit w tab Mode.brk l 0 s st).trace ++ [(s, true)] })
          refine ⟨ds1 ++ [(s, true)] ++ ds2, ?_, ?_, ?_⟩
          · rw [hr1]
            simp [emitNL, hl1, List.append_assoc]
          · intro e he
            simp only [List.append_assoc, List.mem_append, List.mem_singleton] at he
            rcases he with he | he | he
            · exact hl2 e he
            · subst he; exact Or.inl rfl
            · rcases hr2 e he with h | h
              · exact Or.inl h
              · refine Or.inr (le_trans hl3 ?_)
                simpa [emitNL] using h
          · refine le_trans hl3 ?_
            have : (emitNL
                { visit w tab Mode.brk l 0 s st with
                  trace := (visit w tab Mode.brk l 0 s st).trace ++ [(s, true)] }).nextId
                = (visit w tab Mode.brk l 0 s st).nextId := by simp [emitNL]
            rw [← this]
            exact hr3
      | fill =>
          rw [visit_comp_fill]
          split
          · obtain ⟨ds2, hr1, hr2, hr3⟩ := ihr Mode.fill a s
              (emitNL
                { visit w tab Mode.fill l 0 s st with
                  trace := (visit w tab Mode.fill l 0 s st).trace
                    ++ [(s, breakFit w (visit w tab Mode.fill l 0 s st) pad r a)] })
            refine ⟨ds1 ++ [(s, breakFit w (visit w tab Mode.fill l 0 s st) pad r a)] ++ ds2,
              ?_, ?_, ?_⟩
            · rw [hr1]
              simp [emitNL, hl1, List.append_assoc]
            · intro e he
              simp only [List.append_assoc, List.mem_append, List.mem_singleton] at he
              rcases he with he | he | he
              · exact hl2 e he
              · subst he; exact Or.inl rfl
              · rcases hr2 e he with h | h
                · exact Or.inl h
                · refine Or.inr (le_trans hl3 ?_)
                  simpa [emitNL] using h
            · refine le_trans hl3 ?_
              have : (emitNL
                  { visit w tab Mode.fill l 0 s st with
                    trace := (visit w tab Mode.fill l 0 s st).trace
                      ++ [(s, breakFit w (visit w tab Mode.fill l 0 s st) pad r a)] }).nextId
                  = (visit w tab Mode.fill l 0 s st).nextId := by simp [emitNL]
              rw [← this]
              exact hr3
          · obtain ⟨ds2, hr1, hr2, hr3⟩ := ihr Mode.fill a s
              (emits (if pad then [' '] else [])
                { visit w tab Mode.fill l 0 s st with
                  trace := (visit w tab Mode.fill l 0 s st).trace
                    ++ [(s, breakFit w (visit w tab Mode.fill l 0 s st) pad r a)] })
            refine ⟨ds1 ++ [(s, breakFit w (visit w tab Mode.fill l 0 s st) pad r a)] ++ ds2,
              ?_, ?_, ?_⟩
            · rw [hr1]
              simp [emits, hl1, List.append_assoc]
            · intro e he
              simp only [List.append_assoc, List.mem_append, List.mem_singleton] at he
              rcases he with he | he | he
              · exact hl2 e he
              · subst he; exact Or.inl rfl
              · rcases hr2 e he with h | h
                · exact Or.inl h
                · refine Or.inr (le_trans hl3 ?_)
                  simpa [emits] using h
            · refine le_trans hl3 ?_
              have : (emits (if pad then [' '] else [])
                  { visit w tab Mode.fill l 0 s st with
                    trace := (visit w tab Mode.fill l 0 s st).trace
                      ++ [(s, breakFit w (visit w tab Mode.fill l 0 s st) pad r a)] }).nextId
                  = (visit w tab Mode.fill l 0 s st).nextId := by simp [emits]
              rw [← this]
              exact hr3
      | seqm =>
          rw [visit_comp_seqm]
          split
          · obtain ⟨ds2, hr1, hr2, hr3⟩ := ihr Mode.seqm a s
              { emitNL
                { visit w tab Mode.seqm l 0 s st with
                  trace := (visit w tab Mode.seqm l 0 s st).trace
                    ++ [(s, (visit w tab Mode.seqm l 0 s st).line
                          || breakFit w (visit w tab Mode.seqm l 0 s st) pad r a)] }
                with line := true }
            refine ⟨ds1 ++ [(s, (visit w tab Mode.seqm l 0 s st).line
                || breakFit w (visit w tab Mode.seqm l 0 s st) pad r a)] ++ ds2, ?_, ?_, ?_⟩
            · rw [hr1]
              simp [emitNL, hl1, List.append_assoc]
            · intro e he
              simp only [List.append_assoc, List.mem_append, List.mem_singleton] at he
              rcases he with he | he | he
              · exact hl2 e he
              · subst he; exact Or.inl rfl
              · rcases hr2 e he with h | h
                · exact Or.inl h
                · refine Or.inr (le_trans hl3 ?_)
                  simpa [emitNL] using h
            · refine le_trans hl3 ?_
              have : ({ emitNL
                  { visit w tab Mode.seqm l 0 s st with
                    trace := (visit w tab Mode.seqm l 0 s st).trace
                      ++ [(s, (visit w tab Mode.seqm l 0 s st).line
                            || breakFit w (visit w tab Mode.seqm l 0 s st) pad r a)] }
                  with line := true } : RState).nextId
                  = (visit w tab Mode.seqm l 0 s st).nextId := by simp [emitNL]
              rw [← this]
              exact hr3
          · obtain ⟨ds2, hr1, hr2, hr3⟩ := ihr Mode.seqm a s
              (emits (if pad then [' '] else [])
                { visit w tab Mode.seqm l 0 s st with
                  trace := (visit w tab Mode.seqm l 0 s st).trace
                    ++ [(s, (visit w tab Mode.seqm l 0 s st).line
                          || breakFit w (visit w tab Mode.seqm l 0 s st) pad r a)] })
            refine ⟨ds1 ++ [(s, (visit w tab Mode.seqm l 0 s st).line
                || breakFit w (visit w tab Mode.seqm l 0 s st) pad r a)] ++ ds2, ?_, ?_, ?_⟩
            · rw [hr1]
              simp [emits, hl1, List.append_assoc]
            · intro e he
              simp only [List.append_assoc, List.mem_append, List.mem_singleton] at he
              rcases he with he | he | he
              · exact hl2 e he
              · subst he; exact Or.inl rfl
              · rcases hr2 e he with h | h
                · exact Or.inl h
                · refine Or.inr (le_trans hl3 ?_)
                  simpa [emits] using h
            · refine le_trans hl3 ?_
              have : (emits (if pad then [' '] else [])
                  { visit w tab Mode.seqm l 0 s st with
                    trace := (visit w tab Mode.seqm l 0 s st).trace
                      ++ [(s, (visit w tab Mode.seqm l 0 s st).line
                            || breakFit w (visit w tab Mode.seqm l 0 s st) pad r a)] }).nextId
                  = (visit w tab Mode.seqm l 0 s st).nextId := by simp [emits]
              rw [← this]
              exact hr3

/-- In broken mode every decision recorded for the current scope is a
break: a group that failed its fit check breaks each of its direct
break points, while nested scopes re-decide under fresh identifiers. -/
theorem visit_brk_trace (w tab : Int) (o : DocumentObject) :
    ∀ (a s : Nat) (st : RState),
      ∃ ds, (visit w tab Mode.brk o a s st).trace = st.trace ++ ds ∧
        (∀ e ∈ ds, e = (s, true) ∨ st.nextId ≤ e.1) ∧
        st.nextId ≤ (visit w tab Mode.brk o a s st).nextId := by
  induction o with
  | Text d =>
      intro a s st
      rw [visit_text]
      exact ⟨[], by simp [emits], by simp, le_refl _⟩
  | Fix f =>
      intro a s st
      rw [visit_fixr]
      exact ⟨[], by simp [emits], by simp, le_refl _⟩
  | Grp o ih =>
      intro a s st
      rw [visit_grp_nf w tab Mode.brk (by simp)]
      split
      · obtain ⟨-, -, -, -, -, -, hn1, ds, h1, h2⟩ :=
          visit_flat_spec w tab o a st.nextId { st with nextId := st.nextId + 1 }
        refine ⟨ds, by simpa using h1, ?_, ?_⟩
        · intro e he
          have hx : e.1 = st.nextId := by rw [h2 e he]
          exact Or.inr (by omega)
        · simp only [hn1]
          omega
      · obtain ⟨ds, h1, h2, h3⟩ := ih a st.nextId { st with nextId := st.nextId + 1 }
        refine ⟨ds, by simpa using h1, ?_, ?_⟩
        · intro e he
          rcases h2 e he with h | h
          · have hx : e.1 = st.nextId := by rw [h]
            exact Or.inr (by omega)
          · have hx : st.nextId + 1 ≤ e.1 := by simpa using h
            exact Or.inr (by omega)
        · have hx : st.nextId + 1 ≤ (visit w tab Mode.brk o a st.nextId
              { st with nextId := st.nextId + 1 }).nextId := by simpa using h3
          simp only []
          omega
  | Seq o ih =>
      intro a s st
      rw [visit_seq_nf w tab Mode.brk (by simp)]
      obtain ⟨ds, h1, h2, h3⟩ :=
        visit_trace w tab o Mode.seqm a st.nextId { st with nextId := st.nextId + 1, line := false }
      refine ⟨ds, by simpa using h1, ?_, ?_⟩
      · intro e he
        have h2x : e.1 = st.nextId ∨ st.nextId + 1 ≤ e.1 := by simpa using h2 e he
        rcases h2x with h | h
        · exact Or.inr (by omega)
        · exact Or.inr (by omega)
      · have hx : st.nextId + 1 ≤ (visit w tab Mode.seqm o a st.nextId
            { st with nextId := st.nextId + 1, line := false }).nextId := by simpa using h3
        simp only []
        omega
  | Pack i o ih =>
      intro a s st
      rw [visit_pack_nf w tab Mode.brk (by simp)]
      obtain ⟨ds, h1, h2, h3⟩ :=
        visit_trace w tab o Mode.fill a st.nextId { st with nextId := st.nextId + 1, line := false }
      refine ⟨ds, by simpa using h1, ?_, ?_⟩
      · intro e he
        have h2x : e.1 = st.nextId ∨ st.nextId + 1 ≤ e.1 := by simpa using h2 e he
        rcases h2x with h | h
        · exact Or.inr (by omega)
        · exact Or.inr (by omega)
      · have hx : st.nextId + 1 ≤ (visit w tab Mode.fill o a st.nextId
            { st with nextId := st.nextId + 1, line := false }).nextId := by simpa using h3
        simp only []
        omega
  | Nest o ih =>
      intro a s st
      rw [visit_nest_nf w tab Mode.brk (by simp)]
      obtain ⟨ds, h1, h2, h3⟩ := ih a s { st with lvl := nestLvl tab st.lvl }
      exact ⟨ds, by simpa using h1, h2, by simpa using h3⟩
  | Comp l r pad ihl ihr =>
      intro a s st
      obtain ⟨ds1, hl1, hl2, hl3⟩ := ihl 0 s st
      rw [visit_comp_brk]
      obtain ⟨ds2, hr1, hr2, hr3⟩ := ihr a s
        (emitNL
          { visit w tab Mode.brk l 0 s st with
            trace := (visit w tab Mode.brk l 0 s st).trace ++ [(s, true)] })
      refine ⟨ds1 ++ [(s, true)] ++ ds2, ?_, ?_, ?_⟩
      · rw [hr1]
        simp [emitNL, hl1, List.append_assoc]
      · intro e he
        simp only [List.append_assoc, List.mem_append, List.mem_singleton] at he
        rcases he with he | he | he
        · exact hl2 e he
        · subst he; exact Or.inl rfl
        · rcases hr2 e he with h | h
          · exact Or.inl h
          · refine Or.inr (le_trans hl3 ?_)
            simpa [emitNL] using h
      · refine le_trans hl3 ?_
        have : (emitNL
            { visit w tab Mode.brk l 0 s st with
              trace := (visit w tab Mode.brk l 0 s st).trace ++ [(s, true)] }).nextId
            = (visit w tab Mode.brk l 0 s st).nextId := by simp [emitNL]
        rw [← this]
        exact hr3

/-- Characterisation of a sequence scope: its decisions, read left to
right, are monotone (once one break point breaks, all later ones do),
the sticky flag on exit reflects whether any decision of the scope
broke, and a set flag on entry forces every decision of the scope. -/
theorem visit_seqm_trace (w tab : Int) (o : DocumentObject) :
    ∀ (a s : Nat) (st : RState), s < st.nextId →
      ∃ ds, (visit w tab Mode.seqm o a s st).trace = st.trace ++ ds ∧
        (∀ e ∈ ds, e.1 = s ∨ st.nextId ≤ e.1) ∧
        st.nextId ≤ (visit w tab Mode.seqm o a s st).nextId ∧
        (visit w tab Mode.seqm o a s st).line
          = (st.line || (ds.filterMap (decAt s)).any (fun b => b)) ∧
        (st.line = true → ∀ b ∈ ds.filterMap (decAt s), b = true) ∧
        List.Pairwise (fun x y => x ≤ y) (ds.filterMap (decAt s)) := by
  induction o with
  | Text d =>
      intro a s st hs
      rw [visit_text]
      exact ⟨[], by simp [emits], by simp, le_refl _, by simp [emits], by simp, by simp⟩
  | Fix f =>
      intro a s st hs
      rw [visit_fixr]
      exact ⟨[], by simp [emits], by simp, le_refl _, by simp [emits], by simp, by simp⟩
  | Grp o ih =>
      intro a s st hs
      rw [visit_grp_nf w tab Mode.seqm (by simp)]
      split
      · obtain ⟨-, -, -, -, -, -, hn1, ds, h1, h2⟩ :=
          visit_flat_spec w tab o a st.nextId { st with nextId := st.nextId + 1 }
        have hnone : ds.filterMap (decAt s) = [] := by
          rw [List.filterMap_eq_nil_iff]
          intro e he
          rw [h2 e he]
          simp only [decAt, ite_eq_right_iff]
          intro hcon
          exact absurd hcon (by omega)
        refine ⟨ds, by simpa using h1, ?_, ?_, ?_, ?_, ?_⟩
        · intro e he
          rw [h2 e he]
          exact Or.inr (le_refl _)
        · simp only [hn1]
          omega
        · rw [hnone]
          simp
        · rw [hnone]
          simp
        · rw [hnone]
          exact List.Pairwise.nil
      · obtain ⟨ds, h1, h2, h3⟩ := visit_brk_trace w tab o a st.nextId
          { st with nextId := st.nextId + 1 }
        have hids : ∀ e ∈ ds, st.nextId ≤ e.1 := by
          intro e he
          rcases h2 e he with h | h
          · have hx : e.1 = st.nextId := by rw [h]
            omega
          · have hx : st.nextId + 1 ≤ e.1 := by simpa using h
            omega
        have hnone : ds.filterMap (decAt s) = [] := by
          rw [List.filterMap_eq_nil_iff]
          intro e he
          have hge := hids e he
          simp only [decAt, ite_eq_right_iff]
          intro hcon
          exact absurd hcon (by omega)
        refine ⟨ds, by simpa using h1, ?_, ?_, ?_, ?_, ?_⟩
        · intro e he
          exact Or.inr (hids e he)
        · have hx : st.nextId + 1 ≤ (visit w tab Mode.brk o a st.nextId
              { st with nextId := st.nextId + 1 }).nextId := by simpa using h3
          simp only []
          omega
        · rw [hnone]
          simp
        · rw [hnone]
          simp
        · rw [hnone]
          exact List.Pairwise.nil
  | Seq o ih =>
      intro a s st hs
      rw [visit_seq_nf w tab Mode.seqm (by simp)]
      obtain ⟨ds, h1, h2, h3⟩ :=
        visit_trace w tab o Mode.seqm a st.nextId { st with nextId := st.nextId + 1, line := false }
      have hids : ∀ e ∈ ds, st.nextId ≤ e.1 := by
        intro e he
        have h2x : e.1 = st.nextId ∨ st.nextId + 1 ≤ e.1 := by simpa using h2 e he
        rcases h2x with h | h <;> omega
      have hnone : ds.filterMap (decAt s) = [] := by
        rw [List.filterMap_eq_nil_iff]
        intro e he
        have hge := hids e he
        simp only [decAt, ite_eq_right_iff]
        intro hcon
        exact absurd hcon (by omega)
      refine ⟨ds, by simpa using h1, ?_, ?_, ?_, ?_, ?_⟩
      · intro e he
        exact Or.inr (hids e he)
      · have hx : st.nextId + 1 ≤ (visit w tab Mode.seqm o a st.nextId
            { st with nextId := st.nextId + 1, line := false }).nextId := by simpa using h3
        simp only []
        omega
      · rw [hnone]
        simp
      · rw [hnone]
        simp
      · rw [hnone]
        exact List.Pairwise.nil
  | Pack i o ih =>
      intro a s st hs
      rw [visit_pack_nf w tab Mode.seqm (by simp)]
      obtain ⟨ds, h1, h2, h3⟩ :=
        visit_trace w tab o Mode.fill a st.nextId { st with nextId := st.nextId + 1, line := false }
      have hids : ∀ e ∈ ds, st.nextId ≤ e.1 := by
        intro e he
        have h2x : e.1 = st.nextId ∨ st.nextId + 1 ≤ e.1 := by simpa using h2 e he
        rcases h2x with h | h <;> omega
      have hnone : ds.filterMap (decAt s) = [] := by
        rw [List.filterMap_eq_nil_iff]
        intro e he
        have hge := hids e he
        simp only [decAt, ite_eq_right_iff]
        intro hcon
        exact absurd hcon (by omega)
      refine ⟨ds, by simpa using h1, ?_, ?_, ?_, ?_, ?_⟩
      · intro e he
        exact Or.inr (hids e he)
      · have hx : st.nextId + 1 ≤ (visit w tab Mode.fill o a st.nextId
            { st with nextId := st.nextId + 1, line := false }).nextId := by simpa using h3
        simp only []
        omega
      · rw [hnone]
        simp
      · rw [hnone]
        simp
      · rw [hnone]
        exact List.Pairwise.nil
  | Nest o ih =>
      intro a s st hs
      rw [visit_nest_nf w tab Mode.seqm (by simp)]
      obtain ⟨ds, h1, h2, h3, h4, h5, h6⟩ := ih a s { st with lvl := nestLvl tab st.lvl } hs
      exact ⟨ds, by simpa using h1, h2, by simpa using h3, by simpa using h4,
        by simpa using h5, h6⟩
  | Comp l r pad ihl ihr =>
      intro a s st hs
      obtain ⟨ds1, hl1, hl2, hl3, hl4, hl5, hl6⟩ := ihl 0 s st hs
      rw [visit_comp_seqm]
      cases hbb : ((visit w tab Mode.seqm l 0 s st).line
          || breakFit w (visit w tab Mode.seqm l 0 s st) pad r a) with
      | true =>
          rw [if_pos (rfl : (true : Bool) = true)]
          set st4 : RState := { emitNL
              { visit w tab Mode.seqm l 0 s st with
                trace := (visit w tab Mode.seqm l 0 s st).trace ++ [(s, true)] }
              with line := true } with hst4
          have hs4 : s < st4.nextId := by
            have : st4.nextId = (visit w tab Mode.seqm l 0 s st).nextId := by
              simp [hst4, emitNL]
            rw [this]
            omega
          obtain ⟨ds2, hr1, hr2, hr3, hr4, hr5, hr6⟩ := ihr a s st4 hs4
          have h4line : st4.line = true := by simp [hst4]
          have h4next : st4.nextId = (visit w tab Mode.seqm l 0 s st).nextId := by
            simp [hst4, emitNL]
          have h4trace : st4.trace = st.trace ++ (ds1 ++ [(s, true)]) := by
            simp [hst4, emitNL, hl1, List.append_assoc]
          have hall2 : ∀ b ∈ ds2.filterMap (decAt s), b = true := hr5 h4line
          refine ⟨ds1 ++ [(s, true)] ++ ds2, ?_, ?_, ?_, ?_, ?_, ?_⟩
          · rw [hr1, h4trace]
            simp [List.append_assoc]
          · intro e he
            simp only [List.append_assoc, List.mem_append, List.mem_singleton] at he
            rcases he with he | he | he
            · exact hl2 e he
            · subst he; exact Or.inl rfl
            · rcases hr2 e he with h | h
              · exact Or.inl h
              · refine Or.inr (le_trans hl3 ?_)
                rw [← h4next]
                exact h
          · refine le_trans hl3 ?_
            rw [← h4next]
            exact hr3
          · rw [hr4, h4line]
            have hfm : (ds1 ++ [(s, true)] ++ ds2).filterMap (decAt s)
                = (ds1.filterMap (decAt s) ++ [true]) ++ ds2.filterMap (decAt s) := by
              simp [List.filterMap_append, decAt]
            rw [hfm]
            cases st.line <;> simp
          · intro hline
            intro b hb
            simp only [List.filterMap_append, List.mem_append] at hb
            rcases hb with (hb | hb) | hb
            · exact hl5 hline b hb
            · simpa [decAt] using hb
            · exact hall2 b hb
          · have hfm : (ds1 ++ [(s, true)] ++ ds2).filterMap (decAt s)
                = (ds1.filterMap (decAt s) ++ [true]) ++ ds2.filterMap (decAt s) := by
              simp [List.filterMap_append, decAt]
            rw [hfm]
            rw [List.pairwise_append]
            refine ⟨?_, hr6, ?_⟩
            · rw [List.pairwise_append]
              refine ⟨hl6, List.pairwise_singleton _ _, ?_⟩
              intro x hx b hb
              have hbt : b = true := by simpa using hb
              rw [hbt]
              exact Bool.le_true x
            · intro x hx b hb
              have hbt : b = true := hall2 b hb
              rw [hbt]
              exact Bool.le_true x
      | false =>
          rw [if_neg (by simp : ¬ ((false : Bool) = true))]
          have hsplit := Bool.or_eq_false_iff.mp hbb
          have hline1 : (visit w tab Mode.seqm l 0 s st).line = false := hsplit.1
          have hstline : st.line = false := by
            rcases Bool.eq_false_or_eq_true st.line with h | h
            · exfalso
              rw [hl4, h] at hline1
              simp at hline1
            · exact h
          have hany1 : (ds1.filterMap (decAt s)).any (fun b => b) = false := by
            rw [hl4, hstline] at hline1
            simpa using hline1
          have hfalse1 : ∀ b ∈ ds1.filterMap (decAt s), b = false := by
            intro b hb
            rcases Bool.eq_false_or_eq_true b with h | h
            · exfalso
              have hcon : (ds1.filterMap (decAt s)).any (fun b => b) = true :=
                List.any_eq_true.mpr ⟨b, hb, by rw [h]⟩
              rw [hany1] at hcon
              exact Bool.false_ne_true hcon
            · exact h
          set st5 : RState := emits (if pad then [' '] else [])
              { visit w tab Mode.seqm l 0 s st with
                trace := (visit w tab Mode.seqm l 0 s st).trace ++ [(s, false)] } with hst5
          have h5next : st5.nextId = (visit w tab Mode.seqm l 0 s st).nextId := by
            simp [hst5, emits]
          have h5line : st5.line = false := by
            simp [hst5, emits, hline1]
          have h5trace : st5.trace = st.trace ++ (ds1 ++ [(s, false)]) := by
            simp [hst5, emits, hl1, List.append_assoc]
          have hs5 : s < st5.nextId := by
            rw [h5next]
            omega
          obtain ⟨ds2, hr1, hr2, hr3, hr4, hr5, hr6⟩ := ihr a s st5 hs5
          refine ⟨ds1 ++ [(s, false)] ++ ds2, ?_, ?_, ?_, ?_, ?_, ?_⟩
          · rw [hr1, h5trace]
            simp [List.append_assoc]
          · intro e he
            simp only [List.append_assoc, List.mem_append, List.mem_singleton] at he
            rcases he with he | he | he
            · exact hl2 e he
            · subst he; exact Or.inl rfl
            · rcases hr2 e he with h | h
              · exact Or.inl h
              · refine Or.inr (le_trans hl3 ?_)
                rw [← h5next]
                exact h
          · refine le_trans hl3 ?_
            rw [← h5next]
            exact hr3
          · rw [hr4, h5line, hstline]
            have hfm : (ds1 ++ [(s, false)] ++ ds2).filterMap (decAt s)
                = (ds1.filterMap (decAt s) ++ [false]) ++ ds2.filterMap (decAt s) := by
              simp [List.filterMap_append, decAt]
            rw [hfm]
            simp only [List.any_append, hany1]
            simp
          · intro hline
            rw [hline] at hstline
            exact absurd hstline (by simp)
          · have hfm : (ds1 ++ [(s, false)] ++ ds2).filterMap (decAt s)
                = (ds1.filterMap (decAt s) ++ [false]) ++ ds2.filterMap (decAt s) := by
              simp [List.filterMap_append, decAt]
            rw [hfm]
            rw [List.pairwise_append]
            refine ⟨?_, hr6, ?_⟩
            · rw [List.pairwise_append]
              refine ⟨hl6, List.pairwise_singleton _ _, ?_⟩
              intro x hx b hb
              have hxf : x = false := hfalse1 x hx
              have hbf : b = false := by simpa using hb
              rw [hxf, hbf]
            · intro x hx b hb
              have hxf : x = false := by
                rcases List.mem_append.mp hx with h | h
                · exact hfalse1 x h
                · simpa using h
              rw [hxf]
              exact Bool.false_le b

/-- Filtering a trace on a scope and keeping the decisions is the same as
projecting with `decAt`. -/
theorem filter_scope_map (s : Nat) (ds : List (Nat × Bool)) :
    (ds.filter (fun e => e.1 == s)).map (fun e => e.2) = ds.filterMap (decAt s) := by
  induction ds with
  | nil => rfl
  | cons e t ih =>
      by_cases h : e.1 = s
      · simp [List.filter_cons, List.filterMap_cons, decAt, h, ih]
      · simp [List.filter_cons, List.filterMap_cons, decAt, h, ih]

/-- A trace whose entries all precede scope `n` has no entry of scope `n`. -/
theorem filter_lt_nil (n : Nat) (tr : List (Nat × Bool)) (h : ∀ e ∈ tr, e.1 < n) :
    tr.filter (fun e => e.1 == n) = [] := by
  rw [List.filter_eq_nil_iff]
  intro e he
  have := h e he
  simp only [beq_iff_eq]
  omega

/-- The committed rendering of a group records a uniform decision for the
group's own scope: all flat when the fit check passed, all broken when
it failed. -/
theorem grp_decisions_uniform (w tab : Int) (o : DocumentObject) (a : Nat) (st : RState)
    (hinv : ∀ e ∈ st.trace, e.1 < st.nextId) :
    ∀ p ∈ ((if ((st.pos : Int) + offsetR st + flatW o + a ≤ w) then
          visit w tab Mode.flat o a st.nextId { st with nextId := st.nextId + 1 }
        else
          visit w tab Mode.brk o a st.nextId { st with nextId := st.nextId + 1 }) :
        RState).trace.filter (fun e => e.1 == st.nextId),
      ∀ q ∈ ((if ((st.pos : Int) + offsetR st + flatW o + a ≤ w) then
            visit w tab Mode.flat o a st.nextId { st with nextId := st.nextId + 1 }
          else
            visit w tab Mode.brk o a st.nextId { st with nextId := st.nextId + 1 }) :
          RState).trace.filter (fun e => e.1 == st.nextId),
        p.2 = q.2 := by
  split
  · obtain ⟨-, -, -, -, -, -, -, ds, h1, h2⟩ :=
      visit_flat_spec w tab o a st.nextId { st with nextId := st.nextId + 1 }
    have htr : (visit w tab Mode.flat o a st.nextId
        { st with nextId := st.nextId + 1 }).trace = st.trace ++ ds := by
      simpa using h1
    have key : ∀ x ∈ (visit w tab Mode.flat o a st.nextId
        { st with nextId := st.nextId + 1 }).trace.filter (fun e => e.1 == st.nextId),
        x.2 = false := by
      intro x hx
      rw [htr, List.filter_append, filter_lt_nil _ _ hinv, List.nil_append] at hx
      have hx2 := List.mem_of_mem_filter hx
      rw [h2 x hx2]
    intro p hp q hq
    rw [key p hp, key q hq]
  · obtain ⟨ds, h1, h2, -⟩ :=
      visit_brk_trace w tab o a st.nextId { st with nextId := st.nextId + 1 }
    have htr : (visit w tab Mode.brk o a st.nextId
        { st with nextId := st.nextId + 1 }).trace = st.trace ++ ds := by
      simpa using h1
    have key : ∀ x ∈ (visit w tab Mode.brk o a st.nextId
        { st with nextId := st.nextId + 1 }).trace.filter (fun e => e.1 == st.nextId),
        x.2 = true := by
      intro x hx
      rw [htr, List.filter_append, filter_lt_nil _ _ hinv, List.nil_append] at hx
      obtain ⟨hx2, hx3⟩ := List.mem_filter.mp hx
      rcases h2 x hx2 with h | h
      · rw [h]
      · exfalso
        have hid : x.1 = st.nextId := by simpa using hx3
        have hge : st.nextId + 1 ≤ x.1 := by simpa using h
        omega
    intro p hp q hq
    rw [key p hp, key q hq]

/-- Claim C3: within a single `Group`, the rendered output never mixes
flat and broken break points — every decision the renderer records for
the scope opened by a `Grp` node equals every other (all flat when the
group's fit check passed, all broken otherwise; nested scopes re-decide
under fresh identifiers and a group inside a flat region records no
decision of this scope at all). -/
theorem c3_group_all_or_nothing (w tab : Int) (m : Mode) (o : DocumentObject)
    (a s : Nat) (st : RState) (hs : s < st.nextId)
    (hinv : ∀ e ∈ st.trace, e.1 < st.nextId) :
    ∀ p ∈ (visit w tab m (DocumentObject.Grp o) a s st).trace.filter
        (fun e => e.1 == st.nextId),
      ∀ q ∈ (visit w tab m (DocumentObject.Grp o) a s st).trace.filter
        (fun e => e.1 == st.nextId),
        p.2 = q.2 := by
  cases m with
  | flat =>
      rw [visit_grp_flat]
      obtain ⟨-, -, -, -, -, -, -, ds, h1, h2⟩ := visit_flat_spec w tab o a s st
      have hfe : (visit w tab Mode.flat o a s st).trace.filter
          (fun e => e.1 == st.nextId) = [] := by
        rw [h1, List.filter_append, filter_lt_nil _ _ hinv, List.nil_append,
          List.filter_eq_nil_iff]
        intro e he
        rw [h2 e he]
        simp only [beq_iff_eq]
        omega
      intro p hp
      rw [hfe] at hp
      exact absurd hp (List.not_mem_nil p)
  | brk =>
      rw [visit_grp_nf w tab Mode.brk (by simp)]
      exact grp_decisions_uniform w tab o a st hinv
  | fill =>
      rw [visit_grp_nf w tab Mode.fill (by simp)]
      exact grp_decisions_uniform w tab o a st hinv
  | seqm =>
      rw [visit_grp_nf w tab Mode.seqm (by simp)]
      exact grp_decisions_uniform w tab o a st hinv

/-- Witness for `c3_group_all_or_nothing` on a group that fits. -/
theorem c3_witness :
    (0 < initR.nextId ∧ (∀ e ∈ initR.trace, e.1 < initR.nextId)) ∧
    ∀ p ∈ (visit 3 2 Mode.fill
        (DocumentObject.Grp (lower (line (text "aa") (text "bb")))) 0 0 initR).trace.filter
        (fun e => e.1 == initR.nextId),
      ∀ q ∈ (visit 3 2 Mode.fill
          (DocumentObject.Grp (lower (line (text "aa") (text "bb")))) 0 0 initR).trace.filter
          (fun e => e.1 == initR.nextId),
        p.2 = q.2 :=
  ⟨⟨by decide, by decide⟩,
    c3_group_all_or_nothing 3 2 Mode.fill (lower (line (text "aa") (text "bb"))) 0 0 initR
      (by decide) (by decide)⟩

/-- Claim C6: within a single `Sequence` scope, break points are decided
left to right and the decisions are monotone — the list of decisions
the renderer records for the scope opened by a `Seq` node is sorted
from flat to broken, so once one break point cannot stay flat, every
later sibling break point in the scope breaks as well. -/
theorem c6_sequence_sticky (w tab : Int) (m : Mode) (o : DocumentObject)
    (a s : Nat) (st : RState) (hs : s < st.nextId)
    (hinv : ∀ e ∈ st.trace, e.1 < st.nextId) :
    List.Pairwise (fun x y => x ≤ y)
      (((visit w tab m (DocumentObject.Seq o) a s st).trace.filter
          (fun e => e.1 == st.nextId)).map (fun e => e.2)) := by
  cases m with
  | flat =>
      rw [visit_seq_flat]
      obtain ⟨-, -, -, -, -, -, -, ds, h1, h2⟩ := visit_flat_spec w tab o a s st
      have hfe : (visit w tab Mode.flat o a s st).trace.filter
          (fun e => e.1 == st.nextId) = [] := by
        rw [h1, List.filter_append, filter_lt_nil _ _ hinv, List.nil_append,
          List.filter_eq_nil_iff]
        intro e he
        rw [h2 e he]
        simp only [beq_iff_eq]
        omega
      rw [hfe]
      exact List.Pairwise.nil
  | brk =>
      rw [visit_seq_nf w tab Mode.brk (by simp)]
      obtain ⟨ds, h1, -, -, -, -, h6⟩ := visit_seqm_trace w tab o a st.nextId
        { st with nextId := st.nextId + 1, line := false } (Nat.lt_succ_self _)
      have htr : ({ visit w tab Mode.seqm o a st.nextId
          { st with nextId := st.nextId + 1, line := false } with line := st.line } :
          RState).trace = st.trace ++ ds := by
        simpa using h1
      rw [htr, List.filter_append, filter_lt_nil _ _ hinv, List.nil_append, filter_scope_map]
      exact h6
  | fill =>
      rw [visit_seq_nf w tab Mode.fill (by simp)]
      obtain ⟨ds, h1, -, -, -, -, h6⟩ := visit_seqm_trace w tab o a st.nextId
        { st with nextId := st.nextId + 1, line := false } (Nat.lt_succ_self _)
      have htr : ({ visit w tab Mode.seqm o a st.nextId
          { st with nextId := st.nextId + 1, line := false } with line := st.line } :
          RState).trace = st.trace ++ ds := by
        simpa using h1
      rw [htr, List.filter_append, filter_lt_nil _ _ hinv, List.nil_append, filter_scope_map]
      exact h6
  | seqm =>
      rw [visit_seq_nf w tab Mode.seqm (by simp)]
      obtain ⟨ds, h1, -, -, -, -, h6⟩ := visit_seqm_trace w tab o a st.nextId
        { st with nextId := st.nextId + 1, line := false } (Nat.lt_succ_self _)
      have htr : ({ visit w tab Mode.seqm o a st.nextId
          { st with nextId := st.nextId + 1, line := false } with line := st.line } :
          RState).trace = st.trace ++ ds := by
        simpa using h1
      rw [htr, List.filter_append, filter_lt_nil _ _ hinv, List.nil_append, filter_scope_map]
      exact h6

/-- Witness for `c6_sequence_sticky` on a sequence whose first break point
must break (the sticky flag then forces the second, which would have
fit on its own). -/
theorem c6_witness :
    (0 < initR.nextId ∧ (∀ e ∈ initR.trace, e.1 < initR.nextId)) ∧
    List.Pairwise (fun x y => x ≤ y)
      (((visit 7 2 Mode.fill
          (DocumentObject.Seq (lower (line (line (text "aaaaaa") (text "bb")) (text "c"))))
          0 0 initR).trace.filter (fun e => e.1 == initR.nextId)).map (fun e => e.2)) :=
  ⟨⟨by decide, by decide⟩,
    c6_sequence_sticky 7 2 Mode.fill
      (lower (line (line (text "aaaaaa") (text "bb")) (text "c"))) 0 0 initR
      (by decide) (by decide)⟩

end Typeset
